import Mathlib

/-!
Verification development for the diffpy.srfit expression-tree engine.

The Python node graph is embedded shallowly as an arena: every Literal
(Argument leaf, Operator function node, ParameterWrapper leaf adapter)
lives in a `Heap`, a list of `Node`s indexed by natural-number ids.
Child references (`Operator.args`) and observer registrations
(`Literal._observers`) are stored as ids.  Python exceptions are
modelled by an error type, and in-place mutation by explicit heap
passing; a raised exception carries the heap at raise time, since
Python exceptions do not roll back prior mutations.  Potentially
non-terminating recursions over the (possibly cyclic) id graph take an
explicit fuel argument; exhausting the fuel yields a `diverge` result,
the image of a Python infinite recursion.
-/

/-- Python values held by leaves: numbers, or a ParameterProxy object
(a proxy can end up in a value position through
`ParameterProxy.value`'s setter, see parameter.py lines 162-163). -/
inductive PyVal where
  | num (n : Int)
  | proxy (parId : Nat)
deriving DecidableEq

/-- The kinds of Python exceptions raised by the embedded code. -/
inductive PyErr where
  | valueError (msg : String)
  | keyError
  | typeError (msg : String)
  | indexError
  | attributeError
deriving DecidableEq

/-- Evaluation functions of the concrete Operator subclasses in
operators.py that act on scalar values (numpy ufuncs restricted to
scalars), plus `constFn` standing for an arbitrary wrapped function
ignoring its inputs, as allowed by `UFuncOperator`. -/
inductive OpCode where
  | addOp
  | subOp
  | mulOp
  | negOp
  | constFn (k : Int)
deriving DecidableEq

/-- Apply an evaluation function to the positional argument values, as
`self.operation(*vals)` does; wrong arity or non-numeric operands fail
the way a numpy ufunc call fails. -/
def OpCode.apply : OpCode → List PyVal → Except PyErr PyVal
  | OpCode.addOp, [PyVal.num a, PyVal.num b] => Except.ok (PyVal.num (a + b))
  | OpCode.subOp, [PyVal.num a, PyVal.num b] => Except.ok (PyVal.num (a - b))
  | OpCode.mulOp, [PyVal.num a, PyVal.num b] => Except.ok (PyVal.num (a * b))
  | OpCode.negOp, [PyVal.num a] => Except.ok (PyVal.num (-a))
  | OpCode.constFn k, _ => Except.ok (PyVal.num k)
  | _, _ => Except.error (PyErr.typeError "invalid operands")

/-- A node of the Literal graph.
`arg`: an Argument leaf (name, `_value`, `const` flag, observer set).
`op`: an Operator (name, evaluation function, ordered child ids,
cached `_value`, observer set).
`pw`: a ParameterWrapper leaf (parameter.py); `objVal` is the wrapped
object's attribute, `constraintVal` abstracts the optional constraint
callable by its current value (`none` = unconstrained).
An observer set (Python stores the registered `_flush` callbacks
set-like) is represented canonically as a strictly sorted list of the
observing node ids. -/
inductive Node where
  | arg (name : Option String) (value : Option PyVal) (const : Bool) (observers : List Nat)
  | op (name : Option String) (oc : OpCode) (args : List Nat) (cache : Option PyVal) (observers : List Nat)
  | pw (name : Option String) (objVal : PyVal) (constraintVal : Option PyVal) (observers : List Nat)
deriving DecidableEq

/-- The arena of live Literal nodes, with an instrumentation counter
that is bumped every time a `_flush` observer callback runs (the
"observer call counter" the spec proposes for verification). -/
structure Heap where
  nodes : List Node
  flushCount : Nat
deriving DecidableEq

def heapGet (h : Heap) (i : Nat) : Node :=
  h.nodes.getD i (Node.arg none none false [])

def setNode (h : Heap) (i : Nat) (nd : Node) : Heap :=
  { h with nodes := h.nodes.set i nd }

/-- Observer set of a node (`Literal._observers`). -/
def obsOf (h : Heap) (i : Nat) : List Nat :=
  match heapGet h i with
  | Node.arg _ _ _ o => o
  | Node.op _ _ _ _ o => o
  | Node.pw _ _ _ o => o

/-- Child list of a node: `Operator.args`, empty for leaves. -/
def argsOf (h : Heap) (i : Nat) : List Nat :=
  match heapGet h i with
  | Node.op _ _ a _ _ => a
  | _ => []

/-- Cached `_value` of an Operator node (`none` for leaves: a leaf has
no cached result). -/
def cacheOf (h : Heap) (i : Nat) : Option PyVal :=
  match heapGet h i with
  | Node.op _ _ _ c _ => c
  | _ => none

/-- Stored `_value` of an Argument leaf. -/
def leafValOf (h : Heap) (i : Nat) : Option PyVal :=
  match heapGet h i with
  | Node.arg _ v _ _ => v
  | _ => none

/-- Wrapped attribute value of a ParameterWrapper node. -/
def pwObjValOf (h : Heap) (i : Nat) : Option PyVal :=
  match heapGet h i with
  | Node.pw _ v _ _ => some v
  | _ => none

def nameOf (h : Heap) (i : Nat) : Option String :=
  match heapGet h i with
  | Node.arg nm _ _ _ => nm
  | Node.op nm _ _ _ _ => nm
  | Node.pw nm _ _ _ => nm

def isOpNode : Node → Bool
  | Node.op _ _ _ _ _ => true
  | _ => false

/-- Result of a read-only computation: normal value, raised exception,
or fuel exhaustion (modelling non-termination). -/
inductive PRes (α : Type) where
  | ok (a : α)
  | err (e : PyErr)
  | diverge
deriving DecidableEq

/-- Result of a mutating computation; both normal return and a raised
exception carry the heap, because a Python exception leaves all
mutations made so far in place. -/
inductive StepRes (σ : Type) (α : Type) where
  | ok (s : σ) (a : α)
  | err (s : σ) (e : PyErr)
  | diverge
deriving DecidableEq

/-- Run a read-only check on each list element in order, stopping at
the first exception (a Python `for` loop whose body may raise). -/
def foldP (f : Nat → PRes Unit) : List Nat → PRes Unit
  | [] => PRes.ok ()
  | a :: rest =>
    match f a with
    | PRes.ok _ => foldP f rest
    | PRes.err e => PRes.err e
    | PRes.diverge => PRes.diverge

/-- Evaluate list elements in order, collecting their values and
summing their instrumentation counters. -/
def mapPVals (f : Nat → PRes (PyVal × Nat)) : List Nat → PRes (List PyVal × Nat)
  | [] => PRes.ok ([], 0)
  | a :: rest =>
    match f a with
    | PRes.ok (v, c) =>
      match mapPVals f rest with
      | PRes.ok (vs, c') => PRes.ok (v :: vs, c + c')
      | PRes.err e => PRes.err e
      | PRes.diverge => PRes.diverge
    | PRes.err e => PRes.err e
    | PRes.diverge => PRes.diverge

/-- Run an accumulator-passing traversal over a list, stopping at the
first exception. -/
def foldPAcc (f : Nat → List Nat → PRes (List Nat)) : List Nat → List Nat → PRes (List Nat)
  | [], acc => PRes.ok acc
  | a :: rest, acc =>
    match f a acc with
    | PRes.ok acc' => foldPAcc f rest acc'
    | PRes.err e => PRes.err e
    | PRes.diverge => PRes.diverge

/-- Thread a heap-mutating action over a list (a Python `for` loop). -/
def stepFold (f : Nat → Heap → StepRes Heap Unit) : List Nat → Heap → StepRes Heap Unit
  | [], h => StepRes.ok h ()
  | a :: rest, h =>
    match f a h with
    | StepRes.ok h' _ => stepFold f rest h'
    | StepRes.err h' e => StepRes.err h' e
    | StepRes.diverge => StepRes.diverge

/-- Insert an id into a canonically sorted observer set; inserting a
member again leaves the set unchanged. -/
def obsInsert (o : Nat) : List Nat → List Nat
  | [] => [o]
  | x :: xs => if o < x then o :: x :: xs else if o = x then x :: xs else x :: obsInsert o xs

/-- Modelled from the spec: the Literal base class (literal.py) is not
under src/.  Spec section 4.3: `add_observer(callback)` registers an
observer; observers are stored set-like (registering the same callback
twice stores it once).  The callbacks registered by the code under
src/ are always the invalidate callbacks `op._flush` of observing
Operators, so an observer is recorded as the observing node's id. -/
def addObserver (h : Heap) (i o : Nat) : Heap :=
  match heapGet h i with
  | Node.arg nm v c obs => setNode h i (Node.arg nm v c (obsInsert o obs))
  | Node.op nm oc a cv obs => setNode h i (Node.op nm oc a cv (obsInsert o obs))
  | Node.pw nm v cv obs => setNode h i (Node.pw nm v cv (obsInsert o obs))

/-- Modelled from the spec: literal.py is not under src/.  Spec section
4.3: `remove_observer(callback)` fails with a lookup-kind error
(KeyError, as swapper.py line 107 expects) if the callback was never
registered; otherwise it removes the registration. -/
def removeObserver (h : Heap) (i o : Nat) : StepRes Heap Unit :=
  if o ∈ obsOf h i then
    match heapGet h i with
    | Node.arg nm v c obs => StepRes.ok (setNode h i (Node.arg nm v c (obs.erase o))) ()
    | Node.op nm oc a cv obs => StepRes.ok (setNode h i (Node.op nm oc a cv (obs.erase o))) ()
    | Node.pw nm v cv obs => StepRes.ok (setNode h i (Node.pw nm v cv (obs.erase o))) ()
  else StepRes.err h PyErr.keyError

/-- Clearing a node's `_value`, the first half of `Literal._flush`.
For an Argument this clears the stored value (testparameter.py checks
`l._value is None` right after a `_flush`); for an Operator it clears
the cached result; a ParameterWrapper keeps its value in the wrapped
object, which `_flush` does not touch. -/
def clearNode : Node → Node
  | Node.arg nm _ c obs => Node.arg nm none c obs
  | Node.op nm oc a _ obs => Node.op nm oc a none obs
  | Node.pw nm v cv obs => Node.pw nm v cv obs

/-- One `_flush` entry: clear the node's `_value` and bump the
observer-callback counter. -/
def flushOne (h : Heap) (i : Nat) : Heap :=
  { nodes := (setNode h i (clearNode (heapGet h i))).nodes,
    flushCount := h.flushCount + 1 }

/-- Modelled from the spec: literal.py is not under src/.  Spec section
4.3: each observing node's invalidate callback `_flush` clears its own
cached value and then calls `notify()` on itself, which invokes
`_flush` on every current observer, so invalidation propagates
transitively.  `flushListN` runs `_flush` on each id of a worklist in
order; fuel bounds the recursion depth. -/
def flushListN : Nat → List Nat → Heap → StepRes Heap Unit
  | 0, _, _ => StepRes.diverge
  | _ + 1, [], h => StepRes.ok h ()
  | n + 1, o :: rest, h =>
    let h1 := flushOne h o
    match flushListN n (obsOf h1 o) h1 with
    | StepRes.ok h2 _ => flushListN n rest h2
    | StepRes.err h2 e => StepRes.err h2 e
    | StepRes.diverge => StepRes.diverge

/-- The callback `Literal._flush` on a single node (clear own value, then notify). -/
def flushN (n : Nat) (i : Nat) (h : Heap) : StepRes Heap Unit :=
  flushListN n [i] h

/-- Modelled from the spec: literal.py is not under src/.  Spec section
4.3: `notify()` invokes the invalidate callback on every current
observer (it does not clear the notifying node's own value). -/
def notifyN (n : Nat) (i : Nat) (h : Heap) : StepRes Heap Unit :=
  flushListN n (obsOf h i) h

/-- The check `Operator._loopCheck(literal)` from operators.py lines 101-110:
raise ValueError if the literal is the operator itself, otherwise
recurse into the literal's children (only Operators have `args`). -/
def loopCheckN : Nat → Nat → Nat → Heap → PRes Unit
  | 0, _, _, _ => PRes.diverge
  | n + 1, selfId, lit, h =>
    if lit = selfId then PRes.err (PyErr.valueError "self-reference")
    else foldP (fun l => loopCheckN n selfId l h) (argsOf h lit)

/-- Update an Operator node's child list. -/
def setArgs (h : Heap) (i : Nat) (a : List Nat) : Heap :=
  match heapGet h i with
  | Node.op nm oc _ cv obs => setNode h i (Node.op nm oc a cv obs)
  | _ => h

/-- The method `Operator.addLiteral(literal)` from operators.py lines 77-91: run
the loop check, append the literal to `args`, register `self._flush`
as an observer of the literal, then flush self. -/
def addLiteralN (n : Nat) (selfId lit : Nat) (h : Heap) : StepRes Heap Unit :=
  match loopCheckN n selfId lit h with
  | PRes.err e => StepRes.err h e
  | PRes.diverge => StepRes.diverge
  | PRes.ok _ =>
    let h1 := setArgs h selfId (argsOf h selfId ++ [lit])
    let h2 := addObserver h1 lit selfId
    flushN n selfId h2

/-- The value of a Literal, as read by `l.value` during evaluation.
For an Operator this is `Operator.getValue` from operators.py lines
93-99: return the cached `_value` if present, otherwise evaluate the
children in child order and apply the operation to their values
positionally — the computed result is NOT stored back into `_value`.
For an Argument this is modelled from the spec (literal.py is not
under src/): reading an unset value fails with a ValueError-kind
error.  For a ParameterWrapper this is `ParameterWrapper.getValue`
from parameter.py lines 249-253.  The second component counts how many
times an evaluation function was invoked during the call (the spec's
"counting evaluation function"). -/
def getValueN : Nat → Nat → Heap → PRes (PyVal × Nat)
  | 0, _, _ => PRes.diverge
  | n + 1, i, h =>
    match heapGet h i with
    | Node.arg _ v _ _ =>
      match v with
      | some x => PRes.ok (x, 0)
      | none => PRes.err (PyErr.valueError "value never set")
    | Node.pw _ ov cv _ => PRes.ok (cv.getD ov, 0)
    | Node.op _ oc args cache _ =>
      match cache with
      | some v => PRes.ok (v, 0)
      | none =>
        match mapPVals (fun a => getValueN n a h) args with
        | PRes.ok (vals, c) =>
          match oc.apply vals with
          | Except.ok r => PRes.ok (r, c + 1)
          | Except.error e => PRes.err e
        | PRes.err e => PRes.err e
        | PRes.diverge => PRes.diverge

/-- The no-cache branch of `Operator.getValue` (operators.py lines
98-99) as a standalone function: gather the children's current values
in child order and apply the evaluation function positionally.
`getValueN (n + 1)` agrees with this whenever the cache is empty. -/
def computeOpN (n : Nat) (i : Nat) (h : Heap) : PRes (PyVal × Nat) :=
  match heapGet h i with
  | Node.op _ oc args _ _ =>
    match mapPVals (fun a => getValueN n a h) args with
    | PRes.ok (vals, c) =>
      match oc.apply vals with
      | Except.ok r => PRes.ok (r, c + 1)
      | Except.error e => PRes.err e
    | PRes.err e => PRes.err e
    | PRes.diverge => PRes.diverge
  | _ => PRes.diverge

/-- Store a value into an Argument leaf's `_value`. -/
def setLeafVal (h : Heap) (i : Nat) (v : PyVal) : Heap :=
  match heapGet h i with
  | Node.arg nm _ c obs => setNode h i (Node.arg nm (some v) c obs)
  | _ => h

/-- Store a value into a ParameterWrapper's wrapped attribute
(`self.setter(self.obj, value)`). -/
def setPwObjVal (h : Heap) (i : Nat) (v : PyVal) : Heap :=
  match heapGet h i with
  | Node.pw nm _ cv obs => setNode h i (Node.pw nm v cv obs)
  | _ => h

/-- The method `setValue` dispatched on the receiver's class, as Python method
lookup does.  The Argument branch is modelled from the spec
(literal.py is not under src/), section 4.1: fail if the leaf is a
constant that already holds a value; if the new value differs from the
stored one, notify all observers and then store it; setting an equal
value is a no-op.  The ParameterWrapper branch is
`ParameterWrapper.setValue` from parameter.py lines 255-262: refuse
when constrained, otherwise compare against `getValue()`, notify, then
write through the setter.  An Operator has no usable `setValue`. -/
def setValueN (n : Nat) (i : Nat) (v : PyVal) (h : Heap) : StepRes Heap Unit :=
  match heapGet h i with
  | Node.arg _ old cst _ =>
    if cst = true ∧ old ≠ none then StepRes.err h (PyErr.valueError "cannot set constant")
    else if some v = old then StepRes.ok h ()
    else
      match notifyN n i h with
      | StepRes.ok h1 _ => StepRes.ok (setLeafVal h1 i v) ()
      | StepRes.err h1 e => StepRes.err h1 e
      | StepRes.diverge => StepRes.diverge
  | Node.pw _ ov cv _ =>
    if cv ≠ none then StepRes.err h PyErr.attributeError
    else if v ≠ cv.getD ov then
      match notifyN n i h with
      | StepRes.ok h1 _ => StepRes.ok (setPwObjVal h1 i v) ()
      | StepRes.err h1 e => StepRes.err h1 e
      | StepRes.diverge => StepRes.diverge
    else StepRes.ok h ()
  | Node.op _ _ _ _ _ => StepRes.err h PyErr.attributeError

/-- The observer detachment in `_swapLiteral` (swapper.py lines
105-108): `removeObserver` wrapped in `try/except KeyError: pass`, so
an already-removed observer is tolerated and the heap at raise time is
kept. -/
def swapStripObserver (h : Heap) (old opId : Nat) : Heap :=
  match removeObserver h old opId with
  | StepRes.ok h' _ => h'
  | StepRes.err h' _ => h'
  | StepRes.diverge => h

def PyErr.isVE : PyErr → Bool
  | PyErr.valueError _ => true
  | _ => false

/-- The `while oldlit in op.args` loop of `_swapLiteral` (swapper.py
lines 96-124): record the index of the old literal, delete it, detach
the operator as its observer (tolerating a KeyError), run the loop
check on the new literal; on ValueError reinsert and re-subscribe the
old literal and re-raise; otherwise insert the new literal at the same
index, call `oldlit.addObserver(op._flush)` (the source subscribes to
the OLD literal here, line 121), flush the operator, and repeat. -/
def swapLoopN : Nat → Nat → Nat → Nat → Heap → StepRes Heap Unit
  | 0, _, _, _, _ => StepRes.diverge
  | n + 1, opId, old, new, h =>
    if old ∈ argsOf h opId then
      let idx := (argsOf h opId).indexOf old
      let h1 := setArgs h opId ((argsOf h opId).eraseIdx idx)
      let h2 := swapStripObserver h1 old opId
      match loopCheckN n opId new h2 with
      | PRes.err e =>
        if e.isVE then
          let h3 := setArgs h2 opId ((argsOf h2 opId).insertIdx idx old)
          let h4 := addObserver h3 old opId
          StepRes.err h4 e
        else StepRes.err h2 e
      | PRes.diverge => StepRes.diverge
      | PRes.ok _ =>
        let h3 := setArgs h2 opId ((argsOf h2 opId).insertIdx idx new)
        let h4 := addObserver h3 old opId
        match flushN n opId h4 with
        | StepRes.ok h5 _ => swapLoopN n opId old new h5
        | StepRes.err h5 e => StepRes.err h5 e
        | StepRes.diverge => StepRes.diverge
    else StepRes.ok h ()

/-- The helper `_swapLiteral(op, oldlit, newlit)` from swapper.py lines 90-124:
a no-op when old and new are the same literal, otherwise the
replacement loop. -/
def swapLiteralN (n : Nat) (opId old new : Nat) (h : Heap) : StepRes Heap Unit :=
  if old = new then StepRes.ok h ()
  else swapLoopN n opId old new h

/-- Modelled from the spec: the Validate visitor (visitors/validator)
is not under src/.  Spec section 4.4: walk the tree and fail with a
ValueError-kind self-reference error on meeting the same Function
instance twice along a single downward path.  `anc` is the list of
Function ids on the path from the root to the current node. -/
def validateFromN : Nat → Nat → List Nat → Heap → PRes Unit
  | 0, _, _, _ => PRes.diverge
  | n + 1, i, anc, h =>
    match heapGet h i with
    | Node.op _ _ args _ _ =>
      if i ∈ anc then PRes.err (PyErr.valueError "self-reference")
      else foldP (fun a => validateFromN n a (i :: anc) h) args
    | _ => PRes.ok ()

/-- The `validate(root)` entry point used by `Equation.setRoot`. -/
def validateN (n : Nat) (root : Nat) (h : Heap) : PRes Unit :=
  validateFromN n root [] h

/-- Modelled from the spec: the leaf-collecting visitor behind
`findArgs` (visitors/argfinder) is not under src/.  Spec section 4.4:
return the distinct Leaf instances reachable from the root in
first-encountered depth-first order, excluding leaves marked constant
when `getconsts` is false.  `acc` carries the leaves already found. -/
def findArgsFromN : Nat → Nat → Bool → List Nat → Heap → PRes (List Nat)
  | 0, _, _, _, _ => PRes.diverge
  | n + 1, i, getconsts, acc, h =>
    match heapGet h i with
    | Node.arg _ _ cst _ =>
      if cst = true ∧ getconsts = false then PRes.ok acc
      else if i ∈ acc then PRes.ok acc else PRes.ok (acc ++ [i])
    | Node.pw _ _ _ _ =>
      if i ∈ acc then PRes.ok acc else PRes.ok (acc ++ [i])
    | Node.op _ _ args _ _ =>
      foldPAcc (fun a acc' => findArgsFromN n a getconsts acc' h) args acc

/-- The `findArgs(root, getconsts)` entry point used by
`Equation.setRoot`. -/
def findArgsN (n : Nat) (root : Nat) (getconsts : Bool) (h : Heap) : PRes (List Nat) :=
  findArgsFromN n root getconsts [] h

/-- The Equation facade (equationmod.py): the current root id and the
ordered name-to-Argument mapping `argdict`. -/
structure Equation where
  root : Option Nat
  argdict : List (Option String × Nat)
deriving DecidableEq

/-- One insertion into an OrderedDict: a later binding of an existing
key overwrites the value but keeps the key's original position. -/
def odInsert (d : List (Option String × Nat)) (k : Option String) (v : Nat) :
    List (Option String × Nat) :=
  if d.any (fun p => p.1 = k) then d.map (fun p => if p.1 = k then (k, v) else p)
  else d ++ [(k, v)]

/-- The construction `OrderedDict([(arg.name, arg) for arg in args])` from
equationmod.py line 104. -/
def buildArgdict (h : Heap) (ids : List Nat) : List (Option String × Nat) :=
  ids.foldl (fun d i => odInsert d (nameOf h i) i) []

/-- An `OrderedDict.get(name)` lookup on the argdict. -/
def odGet (d : List (Option String × Nat)) (k : Option String) : Option Nat :=
  match d.find? (fun p => p.1 = k) with
  | some p => some p.2
  | none => none

/-- The method `Equation.setRoot(root)` from equationmod.py lines 90-106: validate
the tree (a ValueError propagates before any attribute is assigned),
then store the root and rebuild `argdict` from the non-constant
Arguments in first-encountered order.  The result carries the Equation
state at return or raise time. -/
def eqSetRootN (n : Nat) (h : Heap) (eq : Equation) (r : Nat) : StepRes Equation Unit :=
  match validateN n r h with
  | PRes.err e => StepRes.err eq e
  | PRes.diverge => StepRes.diverge
  | PRes.ok _ =>
    let eq1 : Equation := { eq with root := some r }
    match findArgsN n r false h with
    | PRes.err e => StepRes.err eq1 e
    | PRes.diverge => StepRes.diverge
    | PRes.ok ids => StepRes.ok { eq1 with argdict := buildArgdict h ids } ()

/-- The positional-argument loop of `Equation.__call__`
(equationmod.py lines 119-124): for each supplied value, first test
`idx > len(self.argdict)` (raising ValueError "Too many arguments"),
then fetch `self.args[idx]` — a list indexing that raises an
IndexError-kind error when idx is out of range — and set its value. -/
def eqPosLoopN (n : Nat) (eq : Equation) : Nat → List PyVal → Heap → StepRes Heap Unit
  | _, [], h => StepRes.ok h ()
  | idx, v :: rest, h =>
    if idx > eq.argdict.length then StepRes.err h (PyErr.valueError "Too many arguments")
    else
      match eq.argdict.get? idx with
      | none => StepRes.err h PyErr.indexError
      | some p =>
        match setValueN n p.2 v h with
        | StepRes.ok h' _ => eqPosLoopN n eq (idx + 1) rest h'
        | StepRes.err h' e => StepRes.err h' e
        | StepRes.diverge => StepRes.diverge

/-- The keyword-argument loop of `Equation.__call__` (equationmod.py
lines 127-131): look each name up in `argdict`, raising ValueError for
an unknown name, and set the found Argument's value. -/
def eqKwLoopN (n : Nat) (eq : Equation) : List (String × PyVal) → Heap → StepRes Heap Unit
  | [], h => StepRes.ok h ()
  | (nm, v) :: rest, h =>
    match odGet eq.argdict (some nm) with
    | none => StepRes.err h (PyErr.valueError "No argument with that name here")
    | some argId =>
      match setValueN n argId v h with
      | StepRes.ok h' _ => eqKwLoopN n eq rest h'
      | StepRes.err h' e => StepRes.err h' e
      | StepRes.diverge => StepRes.diverge

/-- The functor call `Equation.__call__(*args, **kw)` from equationmod.py lines
108-133: apply the positional values, then the keyword values, then
return `self.root.getValue()`.  Keyword order is the iteration order
of the supplied mapping. -/
def eqCallN (n : Nat) (eq : Equation) (pos : List PyVal) (kw : List (String × PyVal)) (h : Heap) :
    StepRes Heap PyVal :=
  match eqPosLoopN n eq 0 pos h with
  | StepRes.err h' e => StepRes.err h' e
  | StepRes.diverge => StepRes.diverge
  | StepRes.ok h1 _ =>
    match eqKwLoopN n eq kw h1 with
    | StepRes.err h' e => StepRes.err h' e
    | StepRes.diverge => StepRes.diverge
    | StepRes.ok h2 _ =>
      match eq.root with
      | none => StepRes.err h2 PyErr.attributeError
      | some r =>
        match getValueN n r h2 with
        | PRes.ok (v, _) => StepRes.ok h2 v
        | PRes.err e => StepRes.err h2 e
        | PRes.diverge => StepRes.diverge

/-- A ParameterProxy (parameter.py lines 131-163): a renamed handle on
an underlying Parameter node. -/
structure ParameterProxy where
  name : String
  par : Nat
deriving DecidableEq

/-- A Python method call `par.setValue(...)` with an explicit
positional-argument list: `Parameter.setValue` (parameter.py line 92)
declares exactly one value parameter, so any other number of
positional arguments fails with a TypeError-kind arity error before
the method body runs. -/
def setValueCallN (n : Nat) (i : Nat) (callArgs : List PyVal) (h : Heap) : StepRes Heap Unit :=
  match callArgs with
  | [v] => setValueN n i v h
  | _ => StepRes.err h (PyErr.typeError "setValue takes exactly one argument")

/-- The positional arguments the `ParameterProxy.value` property
setter passes: `lambda self, val: self.par.setValue(self, val)`
(parameter.py lines 162-163) forwards the proxy object itself first
and the assigned value second. -/
def proxySetArgs (p : ParameterProxy) (v : PyVal) : List PyVal :=
  [PyVal.proxy p.par, v]

/-- Assignment through the `ParameterProxy.value` property
(parameter.py lines 162-163). -/
def proxyAssignValueN (n : Nat) (p : ParameterProxy) (v : PyVal) (h : Heap) : StepRes Heap Unit :=
  setValueCallN n p.par (proxySetArgs p v) h

/-- Transitive closure of the observer relation, starting at and
including the node itself: the set of nodes a `_flush` of `i` clears. -/
inductive ObsReach (h : Heap) (i : Nat) : Nat → Prop
  | refl : ObsReach h i i
  | tail {j k : Nat} : ObsReach h i j → k ∈ obsOf h j → ObsReach h i k

/-- Node `F` observes `src` directly or transitively (through any number of
intermediate observing Functions), the relation the spec's
invalidation guarantee quantifies over. -/
def TransObserves (h : Heap) (src F : Nat) : Prop :=
  ∃ o ∈ obsOf h src, ObsReach h o F

/-- Node `b` is reachable from `a` through one or more child (`args`)
steps. -/
inductive ArgReach (h : Heap) : Nat → Nat → Prop
  | direct {a b : Nat} : b ∈ argsOf h a → ArgReach h a b
  | trans {a b c : Nat} : b ∈ argsOf h a → ArgReach h b c → ArgReach h a c

/-- The condition `Operator._loopCheck(lit)` rejects: the literal is
the operator itself, or the operator is reachable from the literal's
children. -/
def SelfRef (h : Heap) (s lit : Nat) : Prop :=
  lit = s ∨ ArgReach h lit s

/-- A heap whose observer registrations all point at Operator nodes,
as every registration made by the embedded code does (observers are
always `op._flush` callbacks of Operators). -/
def ObserversAreOps (h : Heap) : Prop :=
  ∀ i o, o ∈ obsOf h i → isOpNode (heapGet h o) = true

/-- Heap `h'` differs from `h` at most by `_flush`-style clearing: every
node is either untouched or its `_value` wiped. -/
def FlushOut (h h' : Heap) : Prop :=
  ∀ k, heapGet h' k = heapGet h k ∨ heapGet h' k = clearNode (heapGet h k)

/-- Observer set stored in a node. -/
def nodeObs : Node → List Nat
  | Node.arg _ _ _ o => o
  | Node.op _ _ _ _ o => o
  | Node.pw _ _ _ o => o

/-- Child list stored in a node. -/
def nodeArgs : Node → List Nat
  | Node.op _ _ a _ _ => a
  | _ => []

/-- Cached value stored in an Operator node. -/
def nodeCache : Node → Option PyVal
  | Node.op _ _ _ c _ => c
  | _ => none

/-- A leaf is marked constant (only Argument leaves carry the flag;
ParameterWrapper instances are built with `const = False`). -/
def isConstLeaf (h : Heap) (i : Nat) : Bool :=
  match heapGet h i with
  | Node.arg _ _ cst _ => cst
  | _ => false

/-- Example fixture: the spec's concrete scenario `add(a, b)` with
`a = 1` at id 0, `b = 4` at id 1, and the addition Operator at id 2
observing both leaves (the state `addLiteral` wiring produces). -/
def exHeap : Heap :=
  { nodes := [
      Node.arg (some "a") (some (PyVal.num 1)) false [2],
      Node.arg (some "b") (some (PyVal.num 4)) false [2],
      Node.op (some "add") OpCode.addOp [0, 1] none []],
    flushCount := 0 }

/-- Example fixture: `exHeap` extended with a fresh leaf `c = 100` at
id 3, the swap target of the spec's scenario. -/
def exHeapC : Heap :=
  { nodes := [
      Node.arg (some "a") (some (PyVal.num 1)) false [2],
      Node.arg (some "b") (some (PyVal.num 4)) false [2],
      Node.op (some "add") OpCode.addOp [0, 1] none [],
      Node.arg (some "c") (some (PyVal.num 100)) false []],
    flushCount := 0 }

/-- Example fixture: `exHeap` extended with an Operator `g` at id 3
whose only child is the addition Operator, so swapping `g` in below
the addition would create a cycle. -/
def exHeapG : Heap :=
  { nodes := [
      Node.arg (some "a") (some (PyVal.num 1)) false [2],
      Node.arg (some "b") (some (PyVal.num 4)) false [2],
      Node.op (some "add") OpCode.addOp [0, 1] none [3],
      Node.op (some "g") OpCode.negOp [2] none []],
    flushCount := 0 }

/-- Example fixture: a two-level tree `mul(add(a, b), b)` with both
Operator caches filled, for exercising transitive invalidation. -/
def exHeapT : Heap :=
  { nodes := [
      Node.arg (some "a") (some (PyVal.num 1)) false [2],
      Node.arg (some "b") (some (PyVal.num 4)) false [2, 3],
      Node.op (some "add") OpCode.addOp [0, 1] (some (PyVal.num 5)) [3],
      Node.op (some "mul") OpCode.mulOp [2, 1] (some (PyVal.num 20)) []],
    flushCount := 0 }

/-- Example fixture: an Operator with a cached value at id 0 and a
ParameterWrapper leaf at id 1 observed by it. -/
def exHeapW : Heap :=
  { nodes := [
      Node.op (some "add") OpCode.addOp [1, 1] (some (PyVal.num 14)) [],
      Node.pw (some "w") (PyVal.num 7) none [0]],
    flushCount := 0 }

/-- Example fixture: the Equation facade holding `exHeap`'s tree. -/
def exEq : Equation :=
  { root := some 2, argdict := [(some "a", 0), (some "b", 1)] }

/-- Example fixture: a two-node cyclic heap (each Operator is the
other's child), constructible only as raw data, used to exercise the
validation failure path. -/
def exHeapCyc : Heap :=
  { nodes := [
      Node.op none OpCode.addOp [1] none [],
      Node.op none OpCode.addOp [0] none []],
    flushCount := 0 }

/-- Example fixture: the heap `_swapLiteral` produces from `exHeapC`
when told to replace leaf `b` (id 1) with leaf `c` (id 3) in the
addition Operator. -/
def exHeapCSwapped : Heap :=
  { nodes := [
      Node.arg (some "a") (some (PyVal.num 1)) false [2],
      Node.arg (some "b") (some (PyVal.num 4)) false [2],
      Node.op (some "add") OpCode.addOp [0, 3] none [],
      Node.arg (some "c") (some (PyVal.num 100)) false []],
    flushCount := 1 }

/-- Example fixture: the heap `addLiteral` produces when leaf `c`
(id 3) is added as a third child of the addition Operator of
`exHeapC`. -/
def exHeapCAdded : Heap :=
  { nodes := [
      Node.arg (some "a") (some (PyVal.num 1)) false [2],
      Node.arg (some "b") (some (PyVal.num 4)) false [2],
      Node.op (some "add") OpCode.addOp [0, 1, 3] none [],
      Node.arg (some "c") (some (PyVal.num 100)) false [2]],
    flushCount := 1 }

/-- Example fixture: the heap produced when the ParameterWrapper of
`exHeapW` is set to 9: value written through, the observing Operator's
cache cleared, the callback counter bumped. -/
def exHeapWAfter : Heap :=
  { nodes := [
      Node.op (some "add") OpCode.addOp [1, 1] none [],
      Node.pw (some "w") (PyVal.num 9) none [0]],
    flushCount := 1 }

/-- Example fixture: `exHeapT` after `a` is set to 10: both Operator
caches cleared (two observer callbacks ran), new value stored. -/
def exHeapTAfter : Heap :=
  { nodes := [
      Node.arg (some "a") (some (PyVal.num 10)) false [2],
      Node.arg (some "b") (some (PyVal.num 4)) false [2, 3],
      Node.op (some "add") OpCode.addOp [0, 1] none [3],
      Node.op (some "mul") OpCode.mulOp [2, 1] none []],
    flushCount := 2 }

/-- Example fixture: the state after calling the `exEq` Equation with
keyword bindings a = 3, b = 4 starting from `exHeap` (the `a` update
flushed the Operator once; `b` already held 4, a no-op). -/
def exHeapM : Heap :=
  { nodes := [
      Node.arg (some "a") (some (PyVal.num 3)) false [2],
      Node.arg (some "b") (some (PyVal.num 4)) false [2],
      Node.op (some "add") OpCode.addOp [0, 1] none []],
    flushCount := 1 }

/-- Example fixture: `exHeapM` after a further call with only a = 2. -/
def exHeapM2 : Heap :=
  { nodes := [
      Node.arg (some "a") (some (PyVal.num 2)) false [2],
      Node.arg (some "b") (some (PyVal.num 4)) false [2],
      Node.op (some "add") OpCode.addOp [0, 1] none []],
    flushCount := 2 }

/-- Executable form of `ObserversAreOps`, checking every stored
observer id against the arena. -/
def nodeObsAreOps (h : Heap) : Bool :=
  h.nodes.all (fun nd => (nodeObs nd).all (fun o => isOpNode (heapGet h o)))

/-- Invariant of the leaf-collection accumulator: distinct ids, all
non-Operator leaves, none marked constant. -/
def FindArgsInv (h : Heap) (l : List Nat) : Prop :=
  l.Nodup ∧ ∀ m ∈ l, isOpNode (heapGet h m) = false ∧ isConstLeaf h m = false

/-- Erase an observer registration at the node level. -/
def nodeEraseObs : Node → Nat → Node
  | Node.arg nm v c obs, o => Node.arg nm v c (obs.erase o)
  | Node.op nm oc a cv obs, o => Node.op nm oc a cv (obs.erase o)
  | Node.pw nm v cv obs, o => Node.pw nm v cv (obs.erase o)

/-- Add an observer registration at the node level. -/

def nodeInsertObs : Node → Nat → Node
  | Node.arg nm v c obs, o => Node.arg nm v c (obsInsert o obs)
  | Node.op nm oc a cv obs, o => Node.op nm oc a cv (obsInsert o obs)
  | Node.pw nm v cv obs, o => Node.pw nm v cv (obsInsert o obs)

theorem obsOf_eq_nodeObs (h : Heap) (i : Nat) : obsOf h i = nodeObs (heapGet h i) := by
  unfold obsOf nodeObs
  cases heapGet h i <;> rfl

theorem argsOf_eq_nodeArgs (h : Heap) (i : Nat) : argsOf h i = nodeArgs (heapGet h i) := by
  unfold argsOf nodeArgs
  cases heapGet h i <;> rfl

theorem cacheOf_eq_nodeCache (h : Heap) (i : Nat) : cacheOf h i = nodeCache (heapGet h i) := by
  unfold cacheOf nodeCache
  cases heapGet h i <;> rfl

theorem clearNode_clearNode (nd : Node) : clearNode (clearNode nd) = clearNode nd := by
  cases nd <;> rfl

theorem nodeObs_clearNode (nd : Node) : nodeObs (clearNode nd) = nodeObs nd := by
  cases nd <;> rfl

theorem nodeArgs_clearNode (nd : Node) : nodeArgs (clearNode nd) = nodeArgs nd := by
  cases nd <;> rfl

theorem nodeCache_clearNode (nd : Node) : nodeCache (clearNode nd) = none := by
  cases nd <;> rfl

theorem isOpNode_clearNode (nd : Node) : isOpNode (clearNode nd) = isOpNode nd := by
  cases nd <;> rfl

theorem list_set_getD_self {α : Type} (d : α) :
    ∀ (l : List α) (i : Nat), l.set i (l.getD i d) = l := by
  intro l
  induction l with
  | nil => intro i; rfl
  | cons x xs ih =>
    intro i
    cases i with
    | zero => rfl
    | succ j =>
      show x :: xs.set j (xs.getD j d) = x :: xs
      rw [ih j]

theorem setNode_heapGet_self (h : Heap) (i : Nat) : setNode h i (heapGet h i) = h := by
  unfold setNode heapGet
  cases h with
  | mk nodes fc =>
    simp only [Heap.mk.injEq, and_true]
    exact list_set_getD_self _ nodes i

theorem heapGet_setNode_self {h : Heap} {i : Nat} (nd : Node) (hlt : i < h.nodes.length) :
    heapGet (setNode h i nd) i = nd := by
  unfold heapGet setNode
  simp [List.getD_eq_getElem?_getD, List.getElem?_set_self, hlt]

theorem heapGet_setNode_ne {h : Heap} {i j : Nat} (nd : Node) (hne : j ≠ i) :
    heapGet (setNode h i nd) j = heapGet h j := by
  unfold heapGet setNode
  simp [List.getD_eq_getElem?_getD, List.getElem?_set_ne (fun hc => hne hc.symm)]

theorem heapGet_setNode_oob {h : Heap} {i : Nat} (nd : Node) (hge : ¬ i < h.nodes.length) :
    heapGet (setNode h i nd) i = heapGet h i := by
  unfold heapGet setNode
  have h1 : h.nodes[i]? = none := by
    rw [List.getElem?_eq_none_iff]
    omega
  have h2 : (h.nodes.set i nd)[i]? = none := by
    rw [List.getElem?_eq_none_iff]
    simpa using (by omega : h.nodes.length ≤ i)
  simp [List.getD_eq_getElem?_getD, h1, h2]

theorem heapGet_flushOne_self (h : Heap) (i : Nat) :
    heapGet (flushOne h i) i = clearNode (heapGet h i) := by
  have hsame : heapGet (flushOne h i) i = heapGet (setNode h i (clearNode (heapGet h i))) i := by
    unfold flushOne heapGet
    rfl
  rw [hsame]
  by_cases hlt : i < h.nodes.length
  · exact heapGet_setNode_self _ hlt
  · rw [heapGet_setNode_oob _ hlt]
    have : heapGet h i = Node.arg none none false [] := by
      unfold heapGet
      have : h.nodes[i]? = none := by
        rw [List.getElem?_eq_none_iff]
        omega
      simp [List.getD_eq_getElem?_getD, this]
    rw [this]
    rfl

theorem heapGet_flushOne_ne (h : Heap) {i k : Nat} (hk : k ≠ i) :
    heapGet (flushOne h i) k = heapGet h k := by
  have hsame : heapGet (flushOne h i) k = heapGet (setNode h i (clearNode (heapGet h i))) k := by
    unfold flushOne heapGet
    rfl
  rw [hsame]
  exact heapGet_setNode_ne _ hk

theorem flushOne_count (h : Heap) (i : Nat) :
    (flushOne h i).flushCount = h.flushCount + 1 := rfl

theorem flushOut_refl (h : Heap) : FlushOut h h := fun _ => Or.inl rfl

theorem flushOut_trans {h1 h2 h3 : Heap} (a : FlushOut h1 h2) (b : FlushOut h2 h3) :
    FlushOut h1 h3 := by
  intro k
  rcases b k with hb | hb <;> rcases a k with ha | ha
  · exact Or.inl (hb.trans ha)
  · exact Or.inr (hb.trans ha)
  · exact Or.inr (by rw [hb, ha])
  · exact Or.inr (by rw [hb, ha, clearNode_clearNode])

theorem flushOut_obs {h h' : Heap} (hf : FlushOut h h') (k : Nat) : obsOf h' k = obsOf h k := by
  rw [obsOf_eq_nodeObs, obsOf_eq_nodeObs]
  rcases hf k with he | he
  · rw [he]
  · rw [he, nodeObs_clearNode]

theorem flushOut_args {h h' : Heap} (hf : FlushOut h h') (k : Nat) : argsOf h' k = argsOf h k := by
  rw [argsOf_eq_nodeArgs, argsOf_eq_nodeArgs]
  rcases hf k with he | he
  · rw [he]
  · rw [he, nodeArgs_clearNode]

theorem flushOut_clear_eq {h h' : Heap} (hf : FlushOut h h') (k : Nat) :
    clearNode (heapGet h' k) = clearNode (heapGet h k) := by
  rcases hf k with he | he
  · rw [he]
  · rw [he, clearNode_clearNode]

theorem flushOut_keeps_clear {h0 h1 h2 : Heap} {k : Nat}
    (hc : heapGet h1 k = clearNode (heapGet h0 k)) (hf : FlushOut h1 h2) :
    heapGet h2 k = clearNode (heapGet h0 k) := by
  rcases hf k with he | he
  · rw [he, hc]
  · rw [he, hc, clearNode_clearNode]

theorem obsReach_congr {h h' : Heap} (hobs : ∀ j, obsOf h' j = obsOf h j) {o k : Nat} :
    ObsReach h' o k → ObsReach h o k := by
  intro r
  induction r with
  | refl => exact ObsReach.refl
  | tail _ hk ih => exact ObsReach.tail ih (by rw [← hobs]; exact hk)

theorem obsReach_decomp {h : Heap} {i k : Nat} (r : ObsReach h i k) :
    k = i ∨ ∃ m ∈ obsOf h i, ObsReach h m k := by
  induction r with
  | refl => exact Or.inl rfl
  | tail hr hk ih =>
    rename_i j k'
    rcases ih with hj | ⟨m, hm, hmr⟩
    · subst hj
      exact Or.inr ⟨k', hk, ObsReach.refl⟩
    · exact Or.inr ⟨m, hm, ObsReach.tail hmr hk⟩

theorem flushOut_flushOne (h : Heap) (i : Nat) : FlushOut h (flushOne h i) := by
  intro k
  by_cases hk : k = i
  · subst hk
    exact Or.inr (heapGet_flushOne_self h k)
  · exact Or.inl (heapGet_flushOne_ne h hk)

theorem flushListN_spec :
    ∀ (n : Nat) (os : List Nat) (h h' : Heap),
      flushListN n os h = StepRes.ok h' () →
      FlushOut h h' ∧
      (∀ o ∈ os, ∀ k, ObsReach h o k → heapGet h' k = clearNode (heapGet h k)) ∧
      h.flushCount + os.length ≤ h'.flushCount := by
  intro n
  induction n with
  | zero => intro os h h' hrun; cases hrun
  | succ n ih =>
    intro os h h' hrun
    cases os with
    | nil =>
      cases hrun
      refine ⟨flushOut_refl h, ?_, ?_⟩
      · intro o ho
        cases ho
      · simp
    | cons o rest =>
      simp only [flushListN] at hrun
      cases hinner : flushListN n (obsOf (flushOne h o) o) (flushOne h o) with
      | diverge => rw [hinner] at hrun; cases hrun
      | err h2 e => rw [hinner] at hrun; cases hrun
      | ok h2 u =>
        cases u
        rw [hinner] at hrun
        obtain ⟨f12, c12, n12⟩ := ih _ _ _ hinner
        obtain ⟨f2', c2', n2'⟩ := ih _ _ _ hrun
        have f01 : FlushOut h (flushOne h o) := flushOut_flushOne h o
        have f02 : FlushOut h h2 := flushOut_trans f01 f12
        have f0' : FlushOut h h' := flushOut_trans f02 f2'
        refine ⟨f0', ?_, ?_⟩
        · intro ob hob k hreach
          rcases List.mem_cons.mp hob with hobo | hmrest
          · rw [hobo] at hreach
            rcases obsReach_decomp hreach with hk | ⟨w, hw, hwr⟩
            · rw [hk]
              have hc1 : heapGet (flushOne h o) o = clearNode (heapGet h o) :=
                heapGet_flushOne_self h o
              exact flushOut_keeps_clear (flushOut_keeps_clear hc1 f12) f2'
            · have hw1 : w ∈ obsOf (flushOne h o) o := by
                rw [flushOut_obs f01]; exact hw
              have hwr1 : ObsReach (flushOne h o) w k :=
                obsReach_congr (fun j => (flushOut_obs f01 j).symm) hwr
              have hc2 : heapGet h2 k = clearNode (heapGet (flushOne h o) k) :=
                c12 w hw1 k hwr1
              have hc2' : heapGet h2 k = clearNode (heapGet h k) := by
                rw [hc2, flushOut_clear_eq f01]
              exact flushOut_keeps_clear hc2' f2'
          · have hr2 : ObsReach h2 ob k :=
              obsReach_congr (fun j => (flushOut_obs f02 j).symm) hreach
            have hc : heapGet h' k = clearNode (heapGet h2 k) := c2' ob hmrest k hr2
            rw [hc, flushOut_clear_eq f02]
        · have hc1 : (flushOne h o).flushCount = h.flushCount + 1 := flushOne_count h o
          simp only [List.length_cons]
          omega

theorem obsInsert_erase_of_sorted {o : Nat} :
    ∀ {l : List Nat}, l.Sorted (· < ·) → o ∈ l → obsInsert o (l.erase o) = l := by
  intro l
  induction l with
  | nil => intro _ hm; cases hm
  | cons x xs ih =>
    intro hs hm
    rcases List.mem_cons.mp hm with hxo | hmem
    · subst hxo
      rw [List.erase_cons_head]
      cases xs with
      | nil => rfl
      | cons y ys =>
        have hoy : o < y := (List.sorted_cons.mp hs).1 y (List.mem_cons_self y ys)
        simp [obsInsert, hoy]
    · have hxlt : x < o := (List.sorted_cons.mp hs).1 o hmem
      have hxne : ¬ (x == o) = true := by
        simp only [beq_iff_eq]
        omega
      rw [List.erase_cons_tail hxne]
      have h1 : ¬ o < x := by omega
      have h2 : ¬ o = x := by omega
      simp only [obsInsert, if_neg h1, if_neg h2]
      rw [ih (List.sorted_cons.mp hs).2 hmem]

theorem insertIdx_eraseIdx_self {α : Type} {a : α} :
    ∀ (l : List α) (n : Nat), l.get? n = some a → List.insertIdx n a (l.eraseIdx n) = l := by
  intro l
  induction l with
  | nil => intro n hn; cases hn
  | cons x xs ih =>
    intro n hn
    cases n with
    | zero =>
      simp only [List.get?] at hn
      cases hn
      rfl
    | succ m =>
      simp only [List.get?] at hn
      show x :: List.insertIdx m a (xs.eraseIdx m) = x :: xs
      rw [ih m hn]

theorem flushOut_isOp {h h' : Heap} (hf : FlushOut h h') (k : Nat) :
    isOpNode (heapGet h' k) = isOpNode (heapGet h k) := by
  rcases hf k with he | he
  · rw [he]
  · rw [he, isOpNode_clearNode]

theorem observersAreOps_flushOut {h h' : Heap} (ho : ObserversAreOps h) (hf : FlushOut h h') :
    ObserversAreOps h' := by
  intro i o hm
  rw [flushOut_obs hf] at hm
  rw [flushOut_isOp hf]
  exact ho i o hm

theorem flushListN_nonop_fixed :
    ∀ (n : Nat) (os : List Nat) (h h' : Heap),
      ObserversAreOps h →
      (∀ o ∈ os, isOpNode (heapGet h o) = true) →
      flushListN n os h = StepRes.ok h' () →
      ∀ j, isOpNode (heapGet h j) = false → heapGet h' j = heapGet h j := by
  intro n
  induction n with
  | zero => intro os h h' _ _ hrun; cases hrun
  | succ n ih =>
    intro os h h' hobs hops hrun
    cases os with
    | nil => cases hrun; intro j _; rfl
    | cons o rest =>
      simp only [flushListN] at hrun
      cases hinner : flushListN n (obsOf (flushOne h o) o) (flushOne h o) with
      | diverge => rw [hinner] at hrun; cases hrun
      | err h2 e => rw [hinner] at hrun; cases hrun
      | ok h2 u =>
        cases u
        rw [hinner] at hrun
        have f01 : FlushOut h (flushOne h o) := flushOut_flushOne h o
        have hobs1 : ObserversAreOps (flushOne h o) := observersAreOps_flushOut hobs f01
        have hops1 : ∀ m ∈ obsOf (flushOne h o) o, isOpNode (heapGet (flushOne h o) m) = true := by
          intro m hm
          rw [flushOut_obs f01] at hm
          rw [flushOut_isOp f01]
          exact hobs o m hm
        have f12 : FlushOut (flushOne h o) h2 := (flushListN_spec n _ _ _ hinner).1
        have hobs2 : ObserversAreOps h2 := observersAreOps_flushOut hobs1 f12
        have hops2 : ∀ m ∈ rest, isOpNode (heapGet h2 m) = true := by
          intro m hm
          rw [flushOut_isOp f12, flushOut_isOp f01]
          exact hops m (List.mem_cons_of_mem o hm)
        intro j hj
        have hjo : j ≠ o := by
          intro hc
          rw [hc] at hj
          rw [hops o (List.mem_cons_self o rest)] at hj
          cases hj
        have e1 : heapGet (flushOne h o) j = heapGet h j := heapGet_flushOne_ne h hjo
        have hj1 : isOpNode (heapGet (flushOne h o) j) = false := by rw [e1]; exact hj
        have e2 : heapGet h2 j = heapGet (flushOne h o) j :=
          ih _ _ _ hobs1 hops1 hinner j hj1
        have hj2 : isOpNode (heapGet h2 j) = false := by rw [e2]; exact hj1
        have e3 : heapGet h' j = heapGet h2 j :=
          ih _ _ _ hobs2 hops2 hrun j hj2
        rw [e3, e2, e1]

theorem foldP_ok {f : Nat → PRes Unit} :
    ∀ {l : List Nat}, foldP f l = PRes.ok () → ∀ a ∈ l, f a = PRes.ok () := by
  intro l
  induction l with
  | nil => intro _ a ha; cases ha
  | cons x xs ih =>
    intro hfold a ha
    unfold foldP at hfold
    cases hx : f x with
    | ok u =>
      cases u
      rw [hx] at hfold
      rcases List.mem_cons.mp ha with hax | hamem
      · rw [hax]; exact hx
      · exact ih hfold a hamem
    | err e => rw [hx] at hfold; cases hfold
    | diverge => rw [hx] at hfold; cases hfold

theorem foldP_err {f : Nat → PRes Unit} {e : PyErr} :
    ∀ {l : List Nat}, foldP f l = PRes.err e → ∃ a ∈ l, f a = PRes.err e := by
  intro l
  induction l with
  | nil => intro hfold; cases hfold
  | cons x xs ih =>
    intro hfold
    unfold foldP at hfold
    cases hx : f x with
    | ok u =>
      cases u
      rw [hx] at hfold
      obtain ⟨a, ha, hfa⟩ := ih hfold
      exact ⟨a, List.mem_cons_of_mem x ha, hfa⟩
    | err e' =>
      rw [hx] at hfold
      cases hfold
      exact ⟨x, List.mem_cons_self x xs, hx⟩
    | diverge => rw [hx] at hfold; cases hfold

theorem loopCheckN_self_ne_ok (n : Nat) (s : Nat) (h : Heap) :
    loopCheckN n s s h ≠ PRes.ok () := by
  cases n with
  | zero => intro hc; cases hc
  | succ m =>
    unfold loopCheckN
    rw [if_pos rfl]
    intro hc
    cases hc

theorem loopCheckN_err_sound :
    ∀ (n : Nat) {s l : Nat} {h : Heap} {e : PyErr},
      loopCheckN n s l h = PRes.err e →
      SelfRef h s l ∧ e = PyErr.valueError "self-reference" := by
  intro n
  induction n with
  | zero => intro s l h e hrun; cases hrun
  | succ n ih =>
    intro s l h e hrun
    unfold loopCheckN at hrun
    by_cases hls : l = s
    · rw [if_pos hls] at hrun
      cases hrun
      exact ⟨Or.inl hls, rfl⟩
    · rw [if_neg hls] at hrun
      obtain ⟨a, ha, hfa⟩ := foldP_err hrun
      obtain ⟨hsr, he⟩ := ih hfa
      refine ⟨Or.inr ?_, he⟩
      rcases hsr with has | har
      · exact ArgReach.direct (has ▸ ha)
      · exact ArgReach.trans ha har

theorem loopCheckN_ok_sound :
    ∀ (n : Nat) {s l : Nat} {h : Heap},
      loopCheckN n s l h = PRes.ok () → ¬ SelfRef h s l := by
  intro n
  induction n with
  | zero => intro s l h hrun; cases hrun
  | succ n ih =>
    intro s l h hrun
    unfold loopCheckN at hrun
    by_cases hls : l = s
    · rw [if_pos hls] at hrun
      cases hrun
    · rw [if_neg hls] at hrun
      intro hsr
      rcases hsr with hc | har
      · exact hls hc
      · cases har with
        | direct hmem =>
          exact loopCheckN_self_ne_ok n _ h (foldP_ok hrun _ hmem)
        | trans hmem hreach =>
          rename_i b
          exact ih (foldP_ok hrun b hmem) (Or.inr hreach)

theorem heapGet_setLeafVal_ne (h : Heap) {i j : Nat} (v : PyVal) (hne : j ≠ i) :
    heapGet (setLeafVal h i v) j = heapGet h j := by
  unfold setLeafVal
  cases hg : heapGet h i with
  | arg nm old c obs => exact heapGet_setNode_ne _ hne
  | op nm oc a cv obs => rfl
  | pw nm ov cv obs => rfl

theorem heapGet_setPwObjVal_ne (h : Heap) {i j : Nat} (v : PyVal) (hne : j ≠ i) :
    heapGet (setPwObjVal h i v) j = heapGet h j := by
  unfold setPwObjVal
  cases hg : heapGet h i with
  | arg nm old c obs => rfl
  | op nm oc a cv obs => rfl
  | pw nm ov cv obs => exact heapGet_setNode_ne _ hne

theorem heapGet_setArgs_ne (h : Heap) {i j : Nat} (a : List Nat) (hne : j ≠ i) :
    heapGet (setArgs h i a) j = heapGet h j := by
  unfold setArgs
  cases hg : heapGet h i with
  | arg nm old c obs => rfl
  | op nm oc ar cv obs => exact heapGet_setNode_ne _ hne
  | pw nm ov cv obs => rfl

theorem heapGet_addObserver_ne (h : Heap) {i j : Nat} (o : Nat) (hne : j ≠ i) :
    heapGet (addObserver h i o) j = heapGet h j := by
  unfold addObserver
  cases hg : heapGet h i with
  | arg nm old c obs => exact heapGet_setNode_ne _ hne
  | op nm oc a cv obs => exact heapGet_setNode_ne _ hne
  | pw nm ov cv obs => exact heapGet_setNode_ne _ hne

theorem setNode_length (h : Heap) (i : Nat) (nd : Node) :
    (setNode h i nd).nodes.length = h.nodes.length := by
  unfold setNode
  exact List.length_set h.nodes i nd

theorem flushOne_length (h : Heap) (i : Nat) :
    (flushOne h i).nodes.length = h.nodes.length := by
  unfold flushOne
  exact List.length_set h.nodes i _

theorem flushListN_length :
    ∀ (n : Nat) (os : List Nat) (h h' : Heap),
      flushListN n os h = StepRes.ok h' () → h'.nodes.length = h.nodes.length := by
  intro n
  induction n with
  | zero => intro os h h' hrun; cases hrun
  | succ n ih =>
    intro os h h' hrun
    cases os with
    | nil => cases hrun; rfl
    | cons o rest =>
      simp only [flushListN] at hrun
      cases hinner : flushListN n (obsOf (flushOne h o) o) (flushOne h o) with
      | diverge => rw [hinner] at hrun; cases hrun
      | err h2 e => rw [hinner] at hrun; cases hrun
      | ok h2 u =>
        cases u
        rw [hinner] at hrun
        rw [ih _ _ _ hrun, ih _ _ _ hinner, flushOne_length]

/-- Claim C1: in `_swapLiteral`, when the loop check passes, the new
node is inserted at the removed node's index and a cache invalidation
is forced on the Operator — but the source (swapper.py line 121)
subscribes the Operator to the OLD literal, not the new one.  On the
concrete input (swap leaf `b` for fresh leaf `c` in `add(a, b)`): the
child list becomes `[a, c]` and the cache is flushed, yet `c` ends
with no observers while the removed `b` still lists the Operator, so
changes to the new node do not invalidate the Operator's cache.  This
contradicts the claim's observer clause. -/
theorem swapLiteral_subscribes_old_literal :
    swapLiteralN 9 2 1 3 exHeapC = StepRes.ok exHeapCSwapped () ∧
    argsOf exHeapCSwapped 2 = [0, 3] ∧
    cacheOf exHeapCSwapped 2 = none ∧
    exHeapCSwapped.flushCount = exHeapC.flushCount + 1 ∧
    obsOf exHeapCSwapped 3 = [] ∧
    obsOf exHeapCSwapped 1 = [2] :=
  ⟨by decide, by decide, by decide, by decide, by decide, by decide⟩

/-- Claim C3: the spec says supplying more positional values than
mapped leaves fails with a ValueError-kind "too many arguments" error.
The guard in equationmod.py line 121 tests `idx > len(self.argdict)`
instead of `>=`, so on an Equation with one mapped leaf called with
two positional values the indexing `self.args[idx]` at idx = 1 raises
an IndexError-kind error first (after the first value has already been
applied), and the "Too many arguments" ValueError is unreachable. -/
theorem eqCall_oversupply_raises_indexError :
    eqCallN 9 { root := some 2, argdict := [(some "a", 0)] }
        [PyVal.num 7, PyVal.num 8] [] exHeap =
      StepRes.err { nodes := [
        Node.arg (some "a") (some (PyVal.num 7)) false [2],
        Node.arg (some "b") (some (PyVal.num 4)) false [2],
        Node.op (some "add") OpCode.addOp [0, 1] none []], flushCount := 1 }
        PyErr.indexError := by
  decide

/-- Claim C2 (counterexample): the claim says `get_value()` caches the
computed result and a second call does not invoke the evaluation
function.  On `add(a, b)` with an empty cache, evaluation returns the
correct sum but reports one operation invocation, and `Operator.getValue`
(operators.py lines 93-99) never writes `_value`, so the embedded
`getValueN` has no heap output: a repeated call is the very same term
and again performs one invocation, never the zero the claim's cached
second call requires. -/
theorem getValue_recomputes_cex :
    cacheOf exHeap 2 = none ∧
    getValueN 9 2 exHeap = PRes.ok (PyVal.num 5, 1) ∧
    getValueN 9 2 exHeap ≠ PRes.ok (PyVal.num 5, 0) :=
  ⟨by decide, by decide, by decide⟩

/-- Claim C2 (amended): `get_value()` returns a pre-existing cached
result with zero evaluation-function invocations; with an empty cache
it computes the children's current values in child order, applies the
evaluation function once on top of whatever the children's own
evaluations used, and returns the result WITHOUT storing it in the
cache (`getValueN` returns no heap), so a repeated call recomputes. -/
theorem operator_getValue_contract (n i : Nat) (h : Heap) (nm : Option String) (oc : OpCode)
    (args : List Nat) (obs : List Nat) :
    (∀ v, heapGet h i = Node.op nm oc args (some v) obs →
      getValueN (n + 1) i h = PRes.ok (v, 0)) ∧
    (∀ vals c r, heapGet h i = Node.op nm oc args none obs →
      mapPVals (fun a => getValueN n a h) args = PRes.ok (vals, c) →
      oc.apply vals = Except.ok r →
      getValueN (n + 1) i h = PRes.ok (r, c + 1)) := by
  constructor
  · intro v hnode
    simp only [getValueN, hnode]
  · intro vals c r hnode hmap happ
    simp only [getValueN, hnode, hmap, happ]

/-- Witness for C2: the cache-free branch on `add(a, b)` evaluates to
5 with one invocation, and the cached branch on the two-level fixture
returns the cached 5 with zero invocations. -/
theorem operator_getValue_contract_witness :
    getValueN 9 2 exHeap = PRes.ok (PyVal.num 5, 1) ∧
    getValueN 9 2 exHeapT = PRes.ok (PyVal.num 5, 0) := by
  constructor
  · exact (operator_getValue_contract 8 2 exHeap (some "add") OpCode.addOp [0, 1] []).2
      [PyVal.num 1, PyVal.num 4] 0 (PyVal.num 5) (by decide) (by decide) (by rfl)
  · exact (operator_getValue_contract 8 2 exHeapT (some "add") OpCode.addOp [0, 1] [3]).1
      (PyVal.num 5) (by decide)

/-- Claim C10 (counterexample): the claim says assigning through
`ParameterProxy.value` invokes the underlying Parameter's `setValue`
with the proxy object as the value argument.  Had `setValue` actually
been invoked that way (a one-argument call whose value is the proxy),
it would notify and store the proxy; the faithful embedding of
`lambda self, val: self.par.setValue(self, val)` instead passes TWO
positional arguments, so the call fails with a TypeError-kind arity
error before `setValue` runs, and the two behaviours differ on the
concrete input. -/
theorem proxy_value_assign_cex :
    proxyAssignValueN 9 { name := "p2", par := 0 } (PyVal.num 5) exHeap ≠
      setValueCallN 9 0 [PyVal.proxy 0] exHeap ∧
    proxyAssignValueN 9 { name := "p2", par := 0 } (PyVal.num 5) exHeap =
      StepRes.err exHeap (PyErr.typeError "setValue takes exactly one argument") :=
  ⟨by decide, by decide⟩

/-- Claim C10 (amended): assigning through `ParameterProxy.value`
passes the proxy itself and the assigned value as two positional
arguments to the one-value-argument `setValue`, so every such
assignment fails with a TypeError-kind arity error, leaves the heap
(and so the underlying Parameter's stored value) unchanged, and never
stores the assigned value. -/
theorem proxy_value_assign_arity_error (n : Nat) (p : ParameterProxy) (v : PyVal) (h : Heap) :
    proxyAssignValueN n p v h =
      StepRes.err h (PyErr.typeError "setValue takes exactly one argument") := rfl

theorem isOpNode_lt {h : Heap} {i : Nat} (hop : isOpNode (heapGet h i) = true) :
    i < h.nodes.length := by
  by_contra hge
  have hdef : heapGet h i = Node.arg none none false [] := by
    unfold heapGet
    have : h.nodes[i]? = none := by
      rw [List.getElem?_eq_none_iff]
      omega
    simp [List.getD_eq_getElem?_getD, this]
  rw [hdef] at hop
  cases hop

theorem argsOf_setArgs_self {h : Heap} {i : Nat} (a : List Nat)
    (hop : isOpNode (heapGet h i) = true) :
    argsOf (setArgs h i a) i = a := by
  have hlt := isOpNode_lt hop
  unfold setArgs
  cases hg : heapGet h i with
  | arg nm v c obs => rw [hg] at hop; cases hop
  | pw nm v cv obs => rw [hg] at hop; cases hop
  | op nm oc ar cv obs =>
    rw [argsOf_eq_nodeArgs, heapGet_setNode_self _ hlt]
    rfl

theorem obsOf_addObserver_self {h : Heap} {i : Nat} (o : Nat) (hlt : i < h.nodes.length) :
    obsOf (addObserver h i o) i = obsInsert o (obsOf h i) := by
  unfold addObserver
  cases hg : heapGet h i with
  | arg nm v c obs =>
    rw [obsOf_eq_nodeObs, heapGet_setNode_self _ hlt, obsOf_eq_nodeObs, hg]
    rfl
  | op nm oc a cv obs =>
    rw [obsOf_eq_nodeObs, heapGet_setNode_self _ hlt, obsOf_eq_nodeObs, hg]
    rfl
  | pw nm v cv obs =>
    rw [obsOf_eq_nodeObs, heapGet_setNode_self _ hlt, obsOf_eq_nodeObs, hg]
    rfl

theorem setArgs_length (h : Heap) (i : Nat) (a : List Nat) :
    (setArgs h i a).nodes.length = h.nodes.length := by
  unfold setArgs
  cases heapGet h i <;> first | rfl | exact setNode_length h i _

theorem addObserver_length (h : Heap) (i o : Nat) :
    (addObserver h i o).nodes.length = h.nodes.length := by
  unfold addObserver
  cases heapGet h i <;> exact setNode_length h i _

theorem setLeafVal_length (h : Heap) (i : Nat) (v : PyVal) :
    (setLeafVal h i v).nodes.length = h.nodes.length := by
  unfold setLeafVal
  cases heapGet h i <;> first | rfl | exact setNode_length h i _

theorem setPwObjVal_length (h : Heap) (i : Nat) (v : PyVal) :
    (setPwObjVal h i v).nodes.length = h.nodes.length := by
  unfold setPwObjVal
  cases heapGet h i <;> first | rfl | exact setNode_length h i _

/-- Claim C6: `Operator.addLiteral` fails with the ValueError-kind
self-reference error exactly when the candidate child is the Operator
itself or the Operator is reachable through the candidate's children
(`SelfRef`); in the failure case the heap — child list and every
observer registration included — is returned unchanged, and on
success the child is appended at the end of the child list (first
added = leftmost) and the Operator is registered as the child's
observer. -/
theorem addLiteral_self_reference (n : Nat) (s lit : Nat) (h : Heap)
    (hop : isOpNode (heapGet h s) = true)
    (hlit : lit < h.nodes.length) :
    (∀ e, loopCheckN n s lit h = PRes.err e →
      addLiteralN n s lit h = StepRes.err h e ∧ SelfRef h s lit ∧
        e = PyErr.valueError "self-reference") ∧
    (∀ h', addLiteralN n s lit h = StepRes.ok h' () →
      ¬ SelfRef h s lit ∧
      argsOf h' s = argsOf h s ++ [lit] ∧
      obsOf h' lit = obsInsert s (obsOf h lit)) := by
  constructor
  · intro e herr
    refine ⟨?_, (loopCheckN_err_sound n herr).1, (loopCheckN_err_sound n herr).2⟩
    unfold addLiteralN
    rw [herr]
  · intro h' hok
    simp only [addLiteralN] at hok
    cases hlc : loopCheckN n s lit h with
    | err e => rw [hlc] at hok; cases hok
    | diverge => rw [hlc] at hok; cases hok
    | ok u =>
      cases u
      rw [hlc] at hok
      have hnotself := loopCheckN_ok_sound n hlc
      have hne : lit ≠ s := fun hc => hnotself (Or.inl hc)
      unfold flushN at hok
      have hspec := flushListN_spec n _ _ _ hok
      have hfl : FlushOut (addObserver (setArgs h s (argsOf h s ++ [lit])) lit s) h' := hspec.1
      refine ⟨hnotself, ?_, ?_⟩
      · rw [flushOut_args hfl s, argsOf_eq_nodeArgs,
          heapGet_addObserver_ne _ s (fun hc => hne hc.symm), ← argsOf_eq_nodeArgs,
          argsOf_setArgs_self _ hop]
      · have hlit1 : lit < (setArgs h s (argsOf h s ++ [lit])).nodes.length := by
          rw [setArgs_length]
          exact hlit
        rw [flushOut_obs hfl lit, obsOf_addObserver_self _ hlit1, obsOf_eq_nodeObs,
          heapGet_setArgs_ne _ _ hne, ← obsOf_eq_nodeObs]

/-- Witness for C6: adding the addition Operator to itself fails with
the self-reference ValueError and an unchanged heap, while adding the
fresh leaf `c` appends it as the rightmost child and registers the
Operator as its observer. -/
theorem addLiteral_self_reference_witness :
    (addLiteralN 9 2 2 exHeap = StepRes.err exHeap (PyErr.valueError "self-reference") ∧
      SelfRef exHeap 2 2 ∧
      PyErr.valueError "self-reference" = PyErr.valueError "self-reference") ∧
    (¬ SelfRef exHeapC 2 3 ∧
      argsOf exHeapCAdded 2 = argsOf exHeapC 2 ++ [3] ∧
      obsOf exHeapCAdded 3 = obsInsert 2 (obsOf exHeapC 3)) := by
  constructor
  · exact (addLiteral_self_reference 9 2 2 exHeap (by decide) (by decide)).1
      (PyErr.valueError "self-reference") (by decide)
  · exact (addLiteral_self_reference 9 2 3 exHeapC (by decide) (by decide)).2
      exHeapCAdded (by decide)

theorem setPwObjVal_count (h : Heap) (i : Nat) (v : PyVal) :
    (setPwObjVal h i v).flushCount = h.flushCount := by
  unfold setPwObjVal
  cases heapGet h i <;> rfl

/-- Claim C8: with an unconstrained ParameterWrapper leaf,
`setValue` with a value equal to the one the wrapped object already
holds returns with the heap — observer-callback counter included —
exactly unchanged (no notification); with a different value it
notifies all observers (each direct observer's cache ends cleared and
the callback counter grows by at least the number of observers) and
then stores the new value in the wrapped object. -/
theorem pw_setValue_contract (n i : Nat) (v : PyVal) (h : Heap)
    (nm : Option String) (ov : PyVal) (obs : List Nat)
    (hnode : heapGet h i = Node.pw nm ov none obs)
    (hlt : i < h.nodes.length) :
    (v = ov → setValueN n i v h = StepRes.ok h ()) ∧
    (∀ h', v ≠ ov → setValueN n i v h = StepRes.ok h' () →
      pwObjValOf h' i = some v ∧
      (∀ o, o ∈ obs → cacheOf h' o = none) ∧
      h.flushCount + obs.length ≤ h'.flushCount) := by
  have hobseq : obsOf h i = obs := by
    rw [obsOf_eq_nodeObs, hnode]
    rfl
  constructor
  · intro hv
    subst hv
    unfold setValueN
    rw [hnode]
    simp
  · intro h' hv hrun
    simp only [setValueN, hnode] at hrun
    rw [if_neg (by simp)] at hrun
    rw [if_pos (by simpa using hv)] at hrun
    unfold notifyN at hrun
    rw [hobseq] at hrun
    cases hnot : flushListN n obs h with
    | diverge => rw [hnot] at hrun; cases hrun
    | err h1 e => rw [hnot] at hrun; cases hrun
    | ok h1 u =>
      cases u
      rw [hnot] at hrun
      cases hrun
      obtain ⟨hfl, hclr, hcnt⟩ := flushListN_spec n obs h h1 hnot
      have hlen1 : h1.nodes.length = h.nodes.length := flushListN_length n obs h h1 hnot
      have hn1 : heapGet h1 i = Node.pw nm ov none obs := by
        rcases hfl i with he | he
        · rw [he, hnode]
        · rw [he, hnode]
          rfl
      have hlt1 : i < h1.nodes.length := by
        rw [hlen1]
        exact hlt
      refine ⟨?_, ?_, ?_⟩
      · unfold setPwObjVal pwObjValOf
        rw [hn1, heapGet_setNode_self _ hlt1]
      · intro o ho
        have hco : heapGet h1 o = clearNode (heapGet h o) :=
          hclr o ho o ObsReach.refl
        by_cases hoi : o = i
        · subst hoi
          unfold setPwObjVal
          rw [hn1]
          rw [cacheOf_eq_nodeCache, heapGet_setNode_self _ hlt1]
          rfl
        · unfold setPwObjVal
          rw [hn1]
          rw [cacheOf_eq_nodeCache, heapGet_setNode_ne _ hoi, hco, nodeCache_clearNode]
      · rw [setPwObjVal_count]
        exact hcnt

/-- Witness for C8: on the ParameterWrapper fixture, setting the value
it already holds returns the untouched heap, while setting a different
value stores it, clears the single observing Operator's cached result
and bumps the callback counter. -/
theorem pw_setValue_contract_witness :
    setValueN 9 1 (PyVal.num 7) exHeapW = StepRes.ok exHeapW () ∧
    pwObjValOf exHeapWAfter 1 = some (PyVal.num 9) ∧
    cacheOf exHeapWAfter 0 = none ∧
    exHeapW.flushCount + [0].length ≤ exHeapWAfter.flushCount := by
  refine ⟨?_, ?_, ?_, ?_⟩
  · exact (pw_setValue_contract 9 1 (PyVal.num 7) exHeapW (some "w") (PyVal.num 7) [0]
      (by decide) (by decide)).1 rfl
  · exact ((pw_setValue_contract 9 1 (PyVal.num 9) exHeapW (some "w") (PyVal.num 7) [0]
      (by decide) (by decide)).2 exHeapWAfter (by decide) (by decide)).1
  · exact ((pw_setValue_contract 9 1 (PyVal.num 9) exHeapW (some "w") (PyVal.num 7) [0]
      (by decide) (by decide)).2 exHeapWAfter (by decide) (by decide)).2.1 0 (by decide)
  · exact ((pw_setValue_contract 9 1 (PyVal.num 9) exHeapW (some "w") (PyVal.num 7) [0]
      (by decide) (by decide)).2 exHeapWAfter (by decide) (by decide)).2.2

/-- Claim C5: after `setValue` on a bound Argument leaf with a value
different from the stored one, the new value is stored, every Function
transitively observing that leaf (across any number of observer
levels and along every parent path) has its cached result cleared,
and the next `get_value()` on any such Function takes the recompute
branch — it evaluates the children's current values instead of
returning a stale cache, so it reflects the new leaf value. -/
theorem leaf_setValue_invalidates (n i : Nat) (v : PyVal) (h h' : Heap)
    (nm : Option String) (old : Option PyVal) (cst : Bool) (obs : List Nat)
    (hnode : heapGet h i = Node.arg nm old cst obs)
    (hlt : i < h.nodes.length)
    (hdiff : some v ≠ old)
    (hrun : setValueN n i v h = StepRes.ok h' ()) :
    leafValOf h' i = some v ∧
    (∀ F, TransObserves h i F → cacheOf h' F = none) ∧
    (∀ F m, TransObserves h i F → isOpNode (heapGet h' F) = true →
      getValueN (m + 1) F h' = computeOpN m F h') := by
  have hobseq : obsOf h i = obs := by
    rw [obsOf_eq_nodeObs, hnode]
    rfl
  simp only [setValueN, hnode] at hrun
  rw [if_neg (show ¬ some v = old by simpa using hdiff)] at hrun
  split at hrun
  · cases hrun
  · unfold notifyN at hrun
    rw [hobseq] at hrun
    cases hnot : flushListN n obs h with
    | diverge => rw [hnot] at hrun; cases hrun
    | err h1 e => rw [hnot] at hrun; cases hrun
    | ok h1 u =>
      cases u
      rw [hnot] at hrun
      cases hrun
      obtain ⟨hfl, hclr, _⟩ := flushListN_spec n obs h h1 hnot
      have hlen1 : h1.nodes.length = h.nodes.length := flushListN_length n obs h h1 hnot
      have hlt1 : i < h1.nodes.length := by
        rw [hlen1]
        exact hlt
      obtain ⟨old1, hn1⟩ : ∃ old1, heapGet h1 i = Node.arg nm old1 cst obs := by
        rcases hfl i with he | he
        · exact ⟨old, by rw [he, hnode]⟩
        · exact ⟨none, by rw [he, hnode]; rfl⟩
      have hclear : ∀ F, TransObserves h i F → cacheOf (setLeafVal h1 i v) F = none := by
        intro F hF
        obtain ⟨o, ho, hr⟩ := hF
        rw [hobseq] at ho
        have hcF : heapGet h1 F = clearNode (heapGet h F) := hclr o ho F hr
        by_cases hFi : F = i
        · subst hFi
          unfold setLeafVal
          rw [hn1, cacheOf_eq_nodeCache, heapGet_setNode_self _ hlt1]
          rfl
        · unfold setLeafVal
          rw [hn1, cacheOf_eq_nodeCache, heapGet_setNode_ne _ hFi, hcF, nodeCache_clearNode]
      refine ⟨?_, hclear, ?_⟩
      · unfold setLeafVal leafValOf
        rw [hn1, heapGet_setNode_self _ hlt1]
      · intro F m hF hFop
        have hc := hclear F hF
        rw [cacheOf_eq_nodeCache] at hc
        cases hgF : heapGet (setLeafVal h1 i v) F with
        | arg nm2 v2 c2 o2 => rw [hgF] at hFop; cases hFop
        | pw nm2 v2 c2 o2 => rw [hgF] at hFop; cases hFop
        | op nm2 oc2 args2 c2 o2 =>
          rw [hgF] at hc
          have hc2 : c2 = none := hc
          subst hc2
          simp only [getValueN, computeOpN, hgF]

/-- Witness for C5: setting `a` to 10 in `mul(add(a, b), b)` stores
the value, clears the caches of both the direct observer `add` and the
transitive observer `mul`, and the next evaluation of `mul` recomputes
from current values, yielding (10 + 4) * 4 = 56. -/
theorem leaf_setValue_invalidates_witness :
    leafValOf exHeapTAfter 0 = some (PyVal.num 10) ∧
    cacheOf exHeapTAfter 2 = none ∧
    cacheOf exHeapTAfter 3 = none ∧
    getValueN 9 3 exHeapTAfter = computeOpN 8 3 exHeapTAfter ∧
    getValueN 9 3 exHeapTAfter = PRes.ok (PyVal.num 56, 2) := by
  have hmain := leaf_setValue_invalidates 9 0 (PyVal.num 10) exHeapT exHeapTAfter
    (some "a") (some (PyVal.num 1)) false [2] (by decide) (by decide) (by decide) (by decide)
  have htr2 : TransObserves exHeapT 0 2 := ⟨2, by decide, ObsReach.refl⟩
  have htr3 : TransObserves exHeapT 0 3 := ⟨2, by decide, ObsReach.tail ObsReach.refl (by decide)⟩
  refine ⟨hmain.1, hmain.2.1 2 htr2, hmain.2.1 3 htr3, ?_, by decide⟩
  exact hmain.2.2 3 8 htr3 (by decide)

theorem isOp_setNode_same {h : Heap} {i : Nat} {nd : Node}
    (hsame : isOpNode nd = isOpNode (heapGet h i)) (k : Nat) :
    isOpNode (heapGet (setNode h i nd) k) = isOpNode (heapGet h k) := by
  by_cases hk : k = i
  · subst hk
    by_cases hlt : k < h.nodes.length
    · rw [heapGet_setNode_self _ hlt, hsame]
    · rw [heapGet_setNode_oob _ hlt]
  · rw [heapGet_setNode_ne _ hk]

theorem obsOf_setNode_same {h : Heap} {i : Nat} {nd : Node}
    (hsame : nodeObs nd = nodeObs (heapGet h i)) (k : Nat) :
    obsOf (setNode h i nd) k = obsOf h k := by
  by_cases hk : k = i
  · subst hk
    by_cases hlt : k < h.nodes.length
    · rw [obsOf_eq_nodeObs, heapGet_setNode_self _ hlt, hsame, ← obsOf_eq_nodeObs]
    · rw [obsOf_eq_nodeObs, heapGet_setNode_oob _ hlt, ← obsOf_eq_nodeObs]
  · rw [obsOf_eq_nodeObs, heapGet_setNode_ne _ hk, ← obsOf_eq_nodeObs]

theorem observersAreOps_of_pointwise {h h' : Heap} (ho : ObserversAreOps h)
    (hobs : ∀ k, obsOf h' k = obsOf h k)
    (hop : ∀ k, isOpNode (heapGet h' k) = isOpNode (heapGet h k)) :
    ObserversAreOps h' := by
  intro i o hm
  rw [hobs] at hm
  rw [hop]
  exact ho i o hm

theorem setLeafVal_obs_pointwise (h : Heap) (i : Nat) (v : PyVal) (k : Nat) :
    obsOf (setLeafVal h i v) k = obsOf h k := by
  unfold setLeafVal
  cases hg : heapGet h i with
  | arg nm old c obs => exact obsOf_setNode_same (by rw [hg]; rfl) k
  | op nm oc a cv obs => rfl
  | pw nm ov cv obs => rfl

theorem setLeafVal_isOp_pointwise (h : Heap) (i : Nat) (v : PyVal) (k : Nat) :
    isOpNode (heapGet (setLeafVal h i v) k) = isOpNode (heapGet h k) := by
  unfold setLeafVal
  cases hg : heapGet h i with
  | arg nm old c obs => exact isOp_setNode_same (by rw [hg]; rfl) k
  | op nm oc a cv obs => rfl
  | pw nm ov cv obs => rfl

theorem setPwObjVal_obs_pointwise (h : Heap) (i : Nat) (v : PyVal) (k : Nat) :
    obsOf (setPwObjVal h i v) k = obsOf h k := by
  unfold setPwObjVal
  cases hg : heapGet h i with
  | arg nm old c obs => rfl
  | op nm oc a cv obs => rfl
  | pw nm ov cv obs => exact obsOf_setNode_same (by rw [hg]; rfl) k

theorem setPwObjVal_isOp_pointwise (h : Heap) (i : Nat) (v : PyVal) (k : Nat) :
    isOpNode (heapGet (setPwObjVal h i v) k) = isOpNode (heapGet h k) := by
  unfold setPwObjVal
  cases hg : heapGet h i with
  | arg nm old c obs => rfl
  | op nm oc a cv obs => rfl
  | pw nm ov cv obs => exact isOp_setNode_same (by rw [hg]; rfl) k

theorem setValueN_preserves (n t : Nat) (v : PyVal) (h h' : Heap)
    (hobs : ObserversAreOps h)
    (hrun : setValueN n t v h = StepRes.ok h' ()) :
    (∀ j, j ≠ t → isOpNode (heapGet h j) = false → heapGet h' j = heapGet h j) ∧
    ObserversAreOps h' := by
  have hops : ∀ o ∈ obsOf h t, isOpNode (heapGet h o) = true := fun o ho => hobs t o ho
  cases hg : heapGet h t with
  | arg nm old cst obs =>
    simp only [setValueN, hg] at hrun
    by_cases h1 : cst = true ∧ old ≠ none
    · rw [if_pos h1] at hrun
      cases hrun
    · rw [if_neg h1] at hrun
      by_cases h2 : some v = old
      · rw [if_pos h2] at hrun
        cases hrun
        exact ⟨fun j _ _ => rfl, hobs⟩
      · rw [if_neg h2] at hrun
        unfold notifyN at hrun
        cases hnot : flushListN n (obsOf h t) h with
        | diverge => rw [hnot] at hrun; cases hrun
        | err hx e => rw [hnot] at hrun; cases hrun
        | ok hx u =>
          cases u
          rw [hnot] at hrun
          cases hrun
          have hfl : FlushOut h hx := (flushListN_spec n _ _ _ hnot).1
          have hobs1 : ObserversAreOps hx := observersAreOps_flushOut hobs hfl
          constructor
          · intro j hjt hjop
            have e1 : heapGet hx j = heapGet h j :=
              flushListN_nonop_fixed n _ h hx hobs hops hnot j hjop
            rw [heapGet_setLeafVal_ne _ _ hjt, e1]
          · exact observersAreOps_of_pointwise hobs1
              (setLeafVal_obs_pointwise hx t v) (setLeafVal_isOp_pointwise hx t v)
  | pw nm ov cv obs =>
    simp only [setValueN, hg] at hrun
    by_cases h1 : cv ≠ none
    · rw [if_pos h1] at hrun
      cases hrun
    · rw [if_neg h1] at hrun
      by_cases h2 : v ≠ cv.getD ov
      · rw [if_pos h2] at hrun
        unfold notifyN at hrun
        cases hnot : flushListN n (obsOf h t) h with
        | diverge => rw [hnot] at hrun; cases hrun
        | err hx e => rw [hnot] at hrun; cases hrun
        | ok hx u =>
          cases u
          rw [hnot] at hrun
          cases hrun
          have hfl : FlushOut h hx := (flushListN_spec n _ _ _ hnot).1
          have hobs1 : ObserversAreOps hx := observersAreOps_flushOut hobs hfl
          constructor
          · intro j hjt hjop
            have e1 : heapGet hx j = heapGet h j :=
              flushListN_nonop_fixed n _ h hx hobs hops hnot j hjop
            rw [heapGet_setPwObjVal_ne _ _ hjt, e1]
          · exact observersAreOps_of_pointwise hobs1
              (setPwObjVal_obs_pointwise hx t v) (setPwObjVal_isOp_pointwise hx t v)
      · rw [if_neg h2] at hrun
        cases hrun
        exact ⟨fun j _ _ => rfl, hobs⟩
  | op nm oc a cv obs =>
    simp only [setValueN, hg] at hrun
    cases hrun

theorem eqKwLoopN_retention :
    ∀ (kw : List (String × PyVal)) (n : Nat) (eq : Equation) (h h' : Heap),
      ObserversAreOps h →
      eqKwLoopN n eq kw h = StepRes.ok h' () →
      (∀ j, isOpNode (heapGet h j) = false →
        (∀ p ∈ kw, odGet eq.argdict (some p.1) ≠ some j) →
        heapGet h' j = heapGet h j) ∧ ObserversAreOps h' := by
  intro kw
  induction kw with
  | nil =>
    intro n eq h h' hobs hrun
    cases hrun
    exact ⟨fun j _ _ => rfl, hobs⟩
  | cons p rest ih =>
    intro n eq h h' hobs hrun
    obtain ⟨pn, pv⟩ := p
    simp only [eqKwLoopN] at hrun
    cases hlook : odGet eq.argdict (some pn) with
    | none => simp only [hlook] at hrun; cases hrun
    | some t =>
      simp only [hlook] at hrun
      cases hset : setValueN n t pv h with
      | diverge => simp only [hset] at hrun; cases hrun
      | err hx e => simp only [hset] at hrun; cases hrun
      | ok hx u =>
        cases u
        simp only [hset] at hrun
        obtain ⟨hpres, hobs1⟩ := setValueN_preserves n t pv h hx hobs hset
        obtain ⟨hrest, hobs'⟩ := ih n eq hx h' hobs1 hrun
        refine ⟨?_, hobs'⟩
        intro j hjop hnt
        have hjt : j ≠ t := by
          intro hc
          exact hnt (pn, pv) (List.mem_cons_self _ rest) (by rw [hlook, hc])
        have e1 : heapGet hx j = heapGet h j := hpres j hjt hjop
        have hjop1 : isOpNode (heapGet hx j) = false := by rw [e1]; exact hjop
        have e2 : heapGet h' j = heapGet hx j :=
          hrest j hjop1 (fun q hq => hnt q (List.mem_cons_of_mem _ hq))
        rw [e2, e1]

theorem observersAreOps_of_bool {h : Heap} (hb : nodeObsAreOps h = true) : ObserversAreOps h := by
  intro i o ho
  by_cases hlt : i < h.nodes.length
  · have hget : heapGet h i = h.nodes[i] := by
      unfold heapGet
      rw [List.getD_eq_getElem?_getD, List.getElem?_eq_getElem hlt]
      rfl
    have hmem : h.nodes[i] ∈ h.nodes := List.getElem_mem hlt
    have hall := (List.all_eq_true.mp hb) _ hmem
    have hall2 := List.all_eq_true.mp hall
    rw [obsOf_eq_nodeObs, hget] at ho
    exact hall2 o ho
  · exfalso
    have hdef : heapGet h i = Node.arg none none false [] := by
      unfold heapGet
      have hnone : h.nodes[i]? = none := by
        rw [List.getElem?_eq_none_iff]
        omega
      simp [List.getD_eq_getElem?_getD, hnone]
    rw [obsOf_eq_nodeObs, hdef] at ho
    cases ho

/-- Claim C7: Equation evaluation is stateful across calls.  In a
keyword-only call on a heap whose observer registrations all point at
Operators, every leaf node that is not a target of any supplied
keyword binding is left byte-for-byte unchanged — in particular it
retains the value stored by earlier calls, so after `eq(a=3, b=4)` a
following `eq(a=2)` still evaluates with `b = 4`. -/
theorem eqCall_kw_retention (n : Nat) (eq : Equation) (kw : List (String × PyVal))
    (h h' : Heap) (res : PyVal)
    (hobs : ObserversAreOps h)
    (hrun : eqCallN n eq [] kw h = StepRes.ok h' res) :
    ∀ j, isOpNode (heapGet h j) = false →
      (∀ p ∈ kw, odGet eq.argdict (some p.1) ≠ some j) →
      heapGet h' j = heapGet h j := by
  simp only [eqCallN, eqPosLoopN] at hrun
  cases hkw : eqKwLoopN n eq kw h with
  | diverge => simp only [hkw] at hrun; cases hrun
  | err hx e => simp only [hkw] at hrun; cases hrun
  | ok h2 u =>
    cases u
    simp only [hkw] at hrun
    cases hroot : eq.root with
    | none => simp only [hroot] at hrun; cases hrun
    | some r =>
      simp only [hroot] at hrun
      cases hgv : getValueN n r h2 with
      | diverge => simp only [hgv] at hrun; cases hrun
      | err e => simp only [hgv] at hrun; cases hrun
      | ok pr =>
        obtain ⟨v, c⟩ := pr
        simp only [hgv] at hrun
        cases hrun
        exact fun j hj hnt => (eqKwLoopN_retention kw n eq h _ hobs hkw).1 j hj hnt

/-- Witness for C7: `eq(a=3, b=4)` returns 7; the following `eq(a=2)`
returns 6 = 2 + 4, and the `b` leaf (not supplied in the second call)
is unchanged from the first call's state, retaining its value 4. -/
theorem eqCall_kw_retention_witness :
    eqCallN 9 exEq [] [("a", PyVal.num 3), ("b", PyVal.num 4)] exHeap =
      StepRes.ok exHeapM (PyVal.num 7) ∧
    eqCallN 9 exEq [] [("a", PyVal.num 2)] exHeapM = StepRes.ok exHeapM2 (PyVal.num 6) ∧
    heapGet exHeapM2 1 = heapGet exHeapM 1 := by
  refine ⟨by decide, by decide, ?_⟩
  exact eqCall_kw_retention 9 exEq [("a", PyVal.num 2)] exHeapM exHeapM2 (PyVal.num 6)
    (observersAreOps_of_bool (by decide)) (by decide) 1 (by decide) (by decide)

theorem foldPAcc_inv {f : Nat → List Nat → PRes (List Nat)} {P : List Nat → Prop}
    (hf : ∀ a acc out, f a acc = PRes.ok out → P acc → P out) :
    ∀ (l : List Nat) (acc out : List Nat), foldPAcc f l acc = PRes.ok out → P acc → P out := by
  intro l
  induction l with
  | nil =>
    intro acc out hrun hp
    cases hrun
    exact hp
  | cons a rest ih =>
    intro acc out hrun hp
    unfold foldPAcc at hrun
    cases ha : f a acc with
    | ok acc' =>
      rw [ha] at hrun
      exact ih acc' out hrun (hf a acc acc' ha hp)
    | err e => rw [ha] at hrun; cases hrun
    | diverge => rw [ha] at hrun; cases hrun

theorem findArgsFromN_inv :
    ∀ (n : Nat) (i : Nat) (acc out : List Nat) (h : Heap),
      findArgsFromN n i false acc h = PRes.ok out →
      FindArgsInv h acc → FindArgsInv h out := by
  intro n
  induction n with
  | zero => intro i acc out h hrun; cases hrun
  | succ n ih =>
    intro i acc out h hrun hp
    unfold findArgsFromN at hrun
    cases hg : heapGet h i with
    | arg nm v cst obs =>
      simp only [hg, and_true] at hrun
      by_cases hcst : cst = true
      · rw [if_pos hcst] at hrun
        cases hrun
        exact hp
      · rw [if_neg hcst] at hrun
        have hcf : cst = false := by
          rcases Bool.eq_false_or_eq_true cst with hc | hc
          · exact absurd hc hcst
          · exact hc
        by_cases hmem : i ∈ acc
        · rw [if_pos hmem] at hrun
          cases hrun
          exact hp
        · rw [if_neg hmem] at hrun
          cases hrun
          constructor
          · simp [List.nodup_append, hp.1, List.disjoint_singleton, hmem]
          · intro m hm
            rcases List.mem_append.mp hm with hma | hmi
            · exact hp.2 m hma
            · have hmi2 : m = i := by simpa using hmi
              subst hmi2
              constructor
              · rw [hg]
                rfl
              · unfold isConstLeaf
                rw [hg, hcf]
    | pw nm ov cv obs =>
      simp only [hg] at hrun
      by_cases hmem : i ∈ acc
      · rw [if_pos hmem] at hrun
        cases hrun
        exact hp
      · rw [if_neg hmem] at hrun
        cases hrun
        constructor
        · simp [List.nodup_append, hp.1, List.disjoint_singleton, hmem]
        · intro m hm
          rcases List.mem_append.mp hm with hma | hmi
          · exact hp.2 m hma
          · have hmi2 : m = i := by simpa using hmi
            subst hmi2
            constructor
            · rw [hg]
              rfl
            · unfold isConstLeaf
              rw [hg]
    | op nm oc args cv obs =>
      simp only [hg] at hrun
      exact foldPAcc_inv (fun a acc1 out1 ha hp1 => ih a acc1 out1 h ha hp1) args acc out hrun hp

/-- Claim C9: `Equation.setRoot` validates the candidate tree before
installing anything: a validation error propagates with the Equation —
root and name mapping — exactly as it was; on success the root is
stored and `argdict` is rebuilt from the leaves `findArgs` collects
with constants excluded (distinct, non-Operator, non-constant leaves
in first-encountered depth-first order). -/
theorem eqSetRoot_contract (n : Nat) (h : Heap) (eq : Equation) (r : Nat) :
    (∀ e, validateN n r h = PRes.err e → eqSetRootN n h eq r = StepRes.err eq e) ∧
    (∀ eq', eqSetRootN n h eq r = StepRes.ok eq' () →
      eq'.root = some r ∧
      ∀ ids, findArgsN n r false h = PRes.ok ids →
        eq'.argdict = buildArgdict h ids ∧ ids.Nodup ∧
        ∀ m ∈ ids, isOpNode (heapGet h m) = false ∧ isConstLeaf h m = false) := by
  constructor
  · intro e herr
    unfold eqSetRootN
    rw [herr]
  · intro eq' hok
    unfold eqSetRootN at hok
    cases hv : validateN n r h with
    | err e => rw [hv] at hok; cases hok
    | diverge => rw [hv] at hok; cases hok
    | ok u =>
      cases u
      rw [hv] at hok
      cases hf : findArgsN n r false h with
      | err e => rw [hf] at hok; cases hok
      | diverge => rw [hf] at hok; cases hok
      | ok ids0 =>
        rw [hf] at hok
        cases hok
        refine ⟨rfl, ?_⟩
        intro ids hids
        injection hids with hideq
        have hinv : FindArgsInv h ids0 :=
          findArgsFromN_inv n r [] ids0 h hf ⟨List.nodup_nil, by intro m hm; cases hm⟩
        exact hideq ▸ ⟨rfl, hinv.1, hinv.2⟩

/-- Witness for C9: installing the cyclic two-Operator heap's root
fails with the self-reference ValueError and an unchanged Equation,
while installing the `add(a, b)` root stores it and rebuilds the
mapping as a then b. -/
theorem eqSetRoot_contract_witness :
    eqSetRootN 9 exHeapCyc { root := none, argdict := [] } 0 =
      StepRes.err { root := none, argdict := [] } (PyErr.valueError "self-reference") ∧
    ({ root := some 2, argdict := [(some "a", 0), (some "b", 1)] } : Equation).root = some 2 ∧
    ({ root := some 2, argdict := [(some "a", 0), (some "b", 1)] } : Equation).argdict =
      buildArgdict exHeap [0, 1] ∧
    [0, 1].Nodup ∧
    (isOpNode (heapGet exHeap 0) = false ∧ isConstLeaf exHeap 0 = false) := by
  have hpart2 := (eqSetRoot_contract 9 exHeap { root := none, argdict := [] } 2).2
    { root := some 2, argdict := [(some "a", 0), (some "b", 1)] } (by decide)
  have hids := hpart2.2 [0, 1] (by decide)
  refine ⟨?_, hpart2.1, hids.1, hids.2.1, hids.2.2 0 (by decide)⟩
  exact (eqSetRoot_contract 9 exHeapCyc { root := none, argdict := [] } 0).1
    (PyErr.valueError "self-reference") (by decide)

theorem removeObserver_eq {h : Heap} {i o : Nat} (hm : o ∈ obsOf h i) :
    removeObserver h i o = StepRes.ok (setNode h i (nodeEraseObs (heapGet h i) o)) () := by
  unfold removeObserver
  rw [if_pos hm]
  cases hg : heapGet h i <;> rfl

theorem addObserver_eq (h : Heap) (i o : Nat) :
    addObserver h i o = setNode h i (nodeInsertObs (heapGet h i) o) := by
  unfold addObserver
  cases hg : heapGet h i <;> rfl

theorem nodeInsertObs_eraseObs (nd : Node) (o : Nat)
    (hs : (nodeObs nd).Sorted (· < ·)) (hm : o ∈ nodeObs nd) :
    nodeInsertObs (nodeEraseObs nd o) o = nd := by
  cases nd with
  | arg nm v c obs =>
    simp only [nodeObs] at hs hm
    show Node.arg nm v c (obsInsert o (obs.erase o)) = Node.arg nm v c obs
    rw [obsInsert_erase_of_sorted hs hm]
  | op nm oc a cv obs =>
    simp only [nodeObs] at hs hm
    show Node.op nm oc a cv (obsInsert o (obs.erase o)) = Node.op nm oc a cv obs
    rw [obsInsert_erase_of_sorted hs hm]
  | pw nm v cv obs =>
    simp only [nodeObs] at hs hm
    show Node.pw nm v cv (obsInsert o (obs.erase o)) = Node.pw nm v cv obs
    rw [obsInsert_erase_of_sorted hs hm]

theorem setArgs_eq_of_op {h : Heap} {i : Nat} {nm : Option String} {oc : OpCode}
    {a0 : List Nat} {cv : Option PyVal} {obs : List Nat}
    (hg : heapGet h i = Node.op nm oc a0 cv obs) (a : List Nat) :
    setArgs h i a = setNode h i (Node.op nm oc a cv obs) := by
  unfold setArgs
  rw [hg]

theorem setNode_setNode_same (h : Heap) (i : Nat) (a b : Node) :
    setNode (setNode h i a) i b = setNode h i b := by
  unfold setNode
  simp [List.set_set]

theorem setNode_setNode_comm {i j : Nat} (hij : i ≠ j) (h : Heap) (a b : Node) :
    setNode (setNode h i a) j b = setNode (setNode h j b) i a := by
  show Heap.mk ((h.nodes.set i a).set j b) h.flushCount =
    Heap.mk ((h.nodes.set j b).set i a) h.flushCount
  rw [List.set_comm a b h.nodes hij]

theorem mem_obsOf_lt {h : Heap} {i o : Nat} (hm : o ∈ obsOf h i) : i < h.nodes.length := by
  by_contra hge
  have hdef : heapGet h i = Node.arg none none false [] := by
    unfold heapGet
    have hnone : h.nodes[i]? = none := by
      rw [List.getElem?_eq_none_iff]
      omega
    simp [List.getD_eq_getElem?_getD, hnone]
  rw [obsOf_eq_nodeObs, hdef] at hm
  cases hm

theorem mem_argsOf_op {h : Heap} {i a : Nat} (hm : a ∈ argsOf h i) :
    isOpNode (heapGet h i) = true := by
  rw [argsOf_eq_nodeArgs] at hm
  cases hg : heapGet h i with
  | arg nm v c obs => rw [hg] at hm; cases hm
  | pw nm v cv obs => rw [hg] at hm; cases hm
  | op nm oc ar cv obs => rfl

/-- Claim C4: when the loop check on the new literal fails for an
occurrence, `_swapLiteral` reinserts the removed old literal at its
original index in the child list, re-subscribes the Operator as its
observer, and propagates the ValueError to the caller; given the
invariant that the Operator was registered as an observer of the old
literal (which `addLiteral` establishes), the heap carried by the
raised error is exactly the heap before the occurrence's attempted
edit — an atomic-per-occurrence rollback. -/
theorem swapLiteral_rollback (n : Nat) (opId old new : Nat) (h : Heap) (e : PyErr)
    (hne : old ≠ new)
    (hoo : old ≠ opId)
    (hmem : old ∈ argsOf h opId)
    (hobs : opId ∈ obsOf h old)
    (hsorted : (obsOf h old).Sorted (· < ·))
    (hlc : loopCheckN n opId new
        (swapStripObserver
          (setArgs h opId ((argsOf h opId).eraseIdx ((argsOf h opId).indexOf old)))
          old opId)
      = PRes.err e) :
    swapLiteralN (n + 1) opId old new h = StepRes.err h e := by
  have hop : isOpNode (heapGet h opId) = true := mem_argsOf_op hmem
  have hoplt : opId < h.nodes.length := isOpNode_lt hop
  have holdlt : old < h.nodes.length := mem_obsOf_lt hobs
  obtain ⟨nm, oc, a0, cv, obsop, hgop⟩ :
      ∃ nm oc a0 cv obsop, heapGet h opId = Node.op nm oc a0 cv obsop := by
    cases hgo : heapGet h opId with
    | arg l v c o => rw [hgo] at hop; cases hop
    | pw l v c o => rw [hgo] at hop; cases hop
    | op l o1 a c o => exact ⟨l, o1, a, c, o, rfl⟩
  have ha0 : argsOf h opId = a0 := by
    rw [argsOf_eq_nodeArgs, hgop]
    rfl
  obtain ⟨hsr, hee⟩ := loopCheckN_err_sound n hlc
  unfold swapLiteralN
  rw [if_neg hne]
  simp only [swapLoopN]
  rw [if_pos hmem]
  set idx := (argsOf h opId).indexOf old with hidxdef
  set h1 := setArgs h opId ((argsOf h opId).eraseIdx idx) with hh1def
  set h2 := swapStripObserver h1 old opId with hh2def
  simp only [hlc]
  rw [if_pos (show e.isVE = true by rw [hee]; rfl)]
  have hidx : a0.get? idx = some old := by
    rw [hidxdef, ha0]
    exact List.indexOf_get? (ha0 ▸ hmem)
  have hh1' : h1 = setNode h opId (Node.op nm oc (a0.eraseIdx idx) cv obsop) := by
    rw [hh1def, setArgs_eq_of_op hgop, ha0]
  have hgold1 : heapGet h1 old = heapGet h old := by
    rw [hh1']
    exact heapGet_setNode_ne _ hoo
  have hobs1 : opId ∈ obsOf h1 old := by
    rw [obsOf_eq_nodeObs, hgold1, ← obsOf_eq_nodeObs]
    exact hobs
  have hh2' : h2 = setNode h1 old (nodeEraseObs (heapGet h old) opId) := by
    rw [hh2def]
    unfold swapStripObserver
    rw [removeObserver_eq hobs1, hgold1]
  have hlen1 : h1.nodes.length = h.nodes.length := by
    rw [hh1']
    exact setNode_length _ _ _
  have holdlt1 : old < h1.nodes.length := by
    rw [hlen1]
    exact holdlt
  have hgop2 : heapGet h2 opId = Node.op nm oc (a0.eraseIdx idx) cv obsop := by
    rw [hh2', heapGet_setNode_ne _ (fun hc => hoo hc.symm), hh1', heapGet_setNode_self _ hoplt]
  have hargs2 : argsOf h2 opId = a0.eraseIdx idx := by
    rw [argsOf_eq_nodeArgs, hgop2]
    rfl
  have hins : (a0.eraseIdx idx).insertIdx idx old = a0 :=
    insertIdx_eraseIdx_self a0 idx hidx
  have hgold2 : heapGet h2 old = nodeEraseObs (heapGet h old) opId := by
    rw [hh2', heapGet_setNode_self _ holdlt1]
  have hsort' : (nodeObs (heapGet h old)).Sorted (· < ·) := by
    rw [← obsOf_eq_nodeObs]
    exact hsorted
  have hobs' : opId ∈ nodeObs (heapGet h old) := by
    rw [← obsOf_eq_nodeObs]
    exact hobs
  have hfinal :
      addObserver (setArgs h2 opId ((argsOf h2 opId).insertIdx idx old)) old opId = h := by
    calc addObserver (setArgs h2 opId ((argsOf h2 opId).insertIdx idx old)) old opId
        = addObserver (setArgs h2 opId a0) old opId := by rw [hargs2, hins]
      _ = addObserver (setNode h2 opId (Node.op nm oc a0 cv obsop)) old opId := by
            rw [setArgs_eq_of_op hgop2]
      _ = setNode (setNode h2 opId (Node.op nm oc a0 cv obsop)) old
            (nodeInsertObs (heapGet (setNode h2 opId (Node.op nm oc a0 cv obsop)) old) opId) :=
            addObserver_eq _ _ _
      _ = setNode (setNode h2 opId (Node.op nm oc a0 cv obsop)) old (heapGet h old) := by
            rw [heapGet_setNode_ne _ hoo, hgold2, nodeInsertObs_eraseObs _ _ hsort' hobs']
      _ = setNode (setNode (setNode h1 old (nodeEraseObs (heapGet h old) opId)) opId
            (Node.op nm oc a0 cv obsop)) old (heapGet h old) := by rw [← hh2']
      _ = setNode (setNode (setNode h1 opId (Node.op nm oc a0 cv obsop)) old
            (nodeEraseObs (heapGet h old) opId)) old (heapGet h old) := by
            rw [setNode_setNode_comm hoo]
      _ = setNode (setNode h1 opId (Node.op nm oc a0 cv obsop)) old (heapGet h old) := by
            rw [setNode_setNode_same]
      _ = setNode (setNode (setNode h opId (Node.op nm oc (a0.eraseIdx idx) cv obsop)) opId
            (Node.op nm oc a0 cv obsop)) old (heapGet h old) := by rw [← hh1']
      _ = setNode (setNode h opId (Node.op nm oc a0 cv obsop)) old (heapGet h old) := by
            rw [setNode_setNode_same]
      _ = setNode h old (heapGet h old) := by
            rw [← hgop, setNode_heapGet_self]
      _ = h := setNode_heapGet_self h old
  rw [hfinal]

/-- Witness for C4: in the fixture where Operator `g` has the addition
Operator as its child, swapping leaf `b` of the addition for `g` would
create a cycle; the loop check fails and the whole swap returns the
self-reference ValueError with the heap exactly as it started. -/
theorem swapLiteral_rollback_witness :
    swapLiteralN 9 2 1 3 exHeapG = StepRes.err exHeapG (PyErr.valueError "self-reference") := by
  exact swapLiteral_rollback 8 2 1 3 exHeapG (PyErr.valueError "self-reference")
    (by decide) (by decide) (by decide) (by decide) (by decide) (by decide)
